import Mathlib

/-!
# MineTranslator — verification of the translation orchestration engine

Shallow embedding of the translation core of the MineTranslator repository:
credential rotation (`ApiKeyManager`), quota pacing (`OpenAIService`),
the hosted-provider retry protocol (`AiTranslationService.translateText`,
`AiTranslationService.translateWithOpenRouter`), the local-LLM response
recovery (`OllamaService.parseTranslationResponse`,
`OllamaService.fallbackParseResponse`, `OllamaService.executeWithRetry`),
and the orchestrator with its bounded result cache (`TranslationService`).

JavaScript `Record<string,string>` objects and `Map` values are modelled as
insertion-ordered association lists with unique keys; JS string truthiness
(`""` and `undefined` are falsy) is modelled explicitly where the source
relies on it.  Wall-clock durations (`Date.now()` differences) are modelled
as `0`; `sleep`/`delay` calls are recorded as trace events where a claim
talks about them and dropped otherwise.  External I/O (HTTP responses,
thrown network errors) is supplied by explicit oracle parameters.
-/

namespace MineTranslator

/-! ## JavaScript string primitives -/

/-- The `{` character, written via its code point. -/
def lbrace : Char := Char.ofNat 123

/-- The `}` character, written via its code point. -/
def rbrace : Char := Char.ofNat 125

/-- The `"` character, written via its code point. -/
def quoteC : Char := Char.ofNat 34

/-- Does the first list occur as a leading segment of the second? -/
def charsStartWith : List Char → List Char → Bool
  | [], _ => true
  | _ :: _, [] => false
  | p :: ps, c :: cs => p == c && charsStartWith ps cs

/-- Does `pat` occur as a contiguous run inside `l`?  (JS `String.includes`.) -/
def charsHasSub (pat : List Char) : List Char → Bool
  | [] => charsStartWith pat []
  | c :: cs => charsStartWith pat (c :: cs) || charsHasSub pat cs

/-- JS `s.includes(pat)`. -/
def strIncludes (s pat : String) : Bool := charsHasSub pat.toList s.toList

/-- JS whitespace class (the characters relevant to this code base). -/
def jsIsWs (c : Char) : Bool := c == ' ' || c == '\t' || c == '\n' || c == '\r'

/-- JS `String.prototype.trim`. -/
def jsTrim (s : String) : String :=
  ⟨((s.toList.dropWhile jsIsWs).reverse.dropWhile jsIsWs).reverse⟩

/-- Replace every non-overlapping occurrence of `pat` (non-empty) by `rep`,
scanning left to right — the semantics of a JS global literal-pattern
`String.replace`.  The `fuel` argument (initialised to the input length,
which each step strictly decreases below) only makes the recursion
structural; it is never exhausted. -/
def replaceCharsFuel (pat rep : List Char) : Nat → List Char → List Char
  | _, [] => []
  | 0, l => l
  | fuel + 1, c :: cs =>
    if charsStartWith pat (c :: cs) && !pat.isEmpty then
      rep ++ replaceCharsFuel pat rep fuel (List.drop (pat.length - 1) cs)
    else
      c :: replaceCharsFuel pat rep fuel cs

/-- JS `s.replace(/pat/g, rep)` for a literal pattern. -/
def jsReplaceAll (s pat rep : String) : String :=
  ⟨replaceCharsFuel pat.toList rep.toList s.toList.length s.toList⟩

/-- Split a character list on a separator, preserving empty segments (JS
`String.split` with a single-character separator). -/
def splitCharsOn (sep : Char) : List Char → List (List Char)
  | [] => [[]]
  | c :: cs =>
    if c = sep then [] :: splitCharsOn sep cs
    else
      match splitCharsOn sep cs with
      | [] => [[c]]
      | r :: rs => (c :: r) :: rs

/-- JS `s.split(sep)` restricted to a single-character separator. -/
def jsSplitChar (s : String) (sep : Char) : List String :=
  (splitCharsOn sep s.toList).map fun cs => ⟨cs⟩

/-- JS `s.startsWith(pre)`. -/
def jsStartsWith (s pre : String) : Bool := charsStartWith pre.toList s.toList

/-- JS `s.includes(c)` for a single character. -/
def strHasChar (s : String) (c : Char) : Bool := s.toList.contains c

/-- ASCII `toLowerCase`, as applied to language codes. -/
def asciiLower (s : String) : String :=
  ⟨s.toList.map fun c => if 'A' ≤ c && c ≤ 'Z' then Char.ofNat (c.toNat + 32) else c⟩

/-- JS `parseInt(s, 10)`: skip leading whitespace, optional sign, then the
maximal digit run; `none` models `NaN`. -/
def jsParseInt (s : String) : Option Int :=
  let cs := s.toList.dropWhile jsIsWs
  let (neg, cs) : Bool × List Char :=
    match cs with
    | '-' :: rest => (true, rest)
    | '+' :: rest => (false, rest)
    | rest => (false, rest)
  let digits := cs.takeWhile Char.isDigit
  if digits.isEmpty then none
  else
    let v : Nat := digits.foldl (fun acc c => 10 * acc + (c.toNat - '0'.toNat)) 0
    some (if neg then -(v : Int) else (v : Int))

/-! ## JavaScript objects and `Map`s as insertion-ordered association lists -/

/-- A JS `Record<string,string>` / `Map<string,string>`: entries in insertion
order, keys unique by construction. -/
abbrev Obj := List (String × String)

/-- Lookup (`obj[k]`, `map.get(k)`), `none` modelling `undefined`. -/
def objGet (m : Obj) (k : String) : Option String :=
  (m.find? fun p => p.1 == k).map (·.2)

/-- Lookup with the JS-`undefined` artefact defaulted; only used where the
source guarantees presence. -/
def objGetD (m : Obj) (k : String) : String := (objGet m k).getD ""

/-- JS `k in obj` / `map.has(k)`. -/
def objHas (m : Obj) (k : String) : Bool := m.any fun p => p.1 == k

/-- JS property assignment `obj[k] = v` / `map.set(k, v)`: update in place if
the key exists (keeping its insertion position), otherwise append. -/
def objSet : Obj → String → String → Obj
  | [], k, v => [(k, v)]
  | p :: rest, k, v => if p.1 == k then (k, v) :: rest else p :: objSet rest k v

/-- JS `Object.keys(obj)` / `map.keys()` in insertion order. -/
def objKeys (m : Obj) : List String := m.map (·.1)

/-- JS `Object.keys(obj).length` / `map.size`. -/
def objSize (m : Obj) : Nat := m.length

/-- JS `map.delete(k)`. -/
def objDelete (m : Obj) (k : String) : Obj := m.filter fun p => p.1 != k

/-- JS spread merge `{...a, ...b}`: every entry of `b` assigned into `a`. -/
def objMerge (a b : Obj) : Obj := b.foldl (fun acc p => objSet acc p.1 p.2) a

/-- JS string truthiness of a possibly-`undefined` value: `undefined` and
`""` are falsy. -/
def jsTruthy : Option String → Bool
  | none => false
  | some s => s != ""

/-! ### Basic lemmas about `Obj` -/

theorem objGet_objSet_self (m : Obj) (k v : String) :
    objGet (objSet m k v) k = some v := by
  induction m with
  | nil => simp [objSet, objGet, List.find?]
  | cons p rest ih =>
    by_cases hp : p.1 = k
    · simp [objSet, objGet, List.find?, hp]
    · simp only [objSet, objGet, List.find?, beq_iff_eq, hp, if_false]
      rw [show (p.1 == k) = false from by simpa using hp]
      exact ih

theorem objGet_objSet_ne (m : Obj) (k v k' : String) (hne : k' ≠ k) :
    objGet (objSet m k v) k' = objGet m k' := by
  induction m with
  | nil =>
    simp only [objSet, objGet, List.find?]
    rw [show ((k, v).1 == k') = false from by simpa using fun hc => hne hc.symm]
  | cons p rest ih =>
    by_cases hp : p.1 = k
    · simp only [objSet, show (p.1 == k) = true from by simpa using hp, if_true]
      simp only [objGet, List.find?]
      rw [show ((k, v).1 == k') = false from by simpa using fun hc => hne hc.symm]
      rw [show (p.1 == k') = false from by
        simpa [hp] using fun hc => hne hc.symm]
    · simp only [objSet, show (p.1 == k) = false from by simpa using hp,
        Bool.false_eq_true, if_false]
      by_cases hpk : p.1 = k'
      · simp [objGet, List.find?, hpk]
      · simp only [objGet, List.find?]
        rw [show (p.1 == k') = false from by simpa using hpk]
        exact ih

theorem objKeys_objSet (m : Obj) (k v : String) :
    objKeys (objSet m k v) = if objHas m k then objKeys m else objKeys m ++ [k] := by
  induction m with
  | nil => simp [objSet, objKeys, objHas]
  | cons p rest ih =>
    by_cases hp : p.1 = k
    · simp [objSet, objKeys, objHas, hp]
    · have hpf : (p.1 == k) = false := by simpa using hp
      simp only [objSet, hpf, Bool.false_eq_true, if_false, objKeys, List.map_cons,
        objHas, List.any_cons, Bool.false_or]
      by_cases h : objHas rest k
      · rw [h] at ih
        simp only [objHas] at h
        simp only [h, if_true]
        simp only [objKeys] at ih
        simp [ih]
      · rw [Bool.of_not_eq_true h] at ih
        have h2 : (rest.any fun p => p.1 == k) = false := by
          simpa only [objHas] using Bool.of_not_eq_true h
        rw [h2]
        simp only [if_false, Bool.false_eq_true]
        simp only [objKeys] at ih
        simp [ih]

theorem mem_objKeys_objSet_iff (m : Obj) (k v x : String) :
    x ∈ objKeys (objSet m k v) ↔ x ∈ objKeys m ∨ x = k := by
  rw [objKeys_objSet]
  by_cases h : objHas m k
  · simp only [h, if_true]
    constructor
    · exact fun hx => Or.inl hx
    · rintro (hx | rfl)
      · exact hx
      · unfold objHas at h
        simp only [List.any_eq_true, beq_iff_eq] at h
        obtain ⟨p, hp, hpk⟩ := h
        unfold objKeys
        exact List.mem_map.mpr ⟨p, hp, hpk⟩
  · simp [h, List.mem_append]

/-! ## ApiKeyManager (`src/services/ai/ApiKeyManager.ts`)

The credential pool: an ordered list of API keys and a cursor. -/

structure ApiKeyManager where
  apiKeys : List String
  currentKeyIndex : Nat := 0

namespace ApiKeyManager

/-- `get currentKey()`: the active secret, or an error if the pool is empty. -/
def currentKey (m : ApiKeyManager) : Except String String :=
  if m.apiKeys.length = 0 then .error "No API keys available"
  else .ok (m.apiKeys.getD m.currentKeyIndex "")

/-- `switchKey()`: advance the cursor modulo the pool size (throws on an
empty pool), returning the updated manager. -/
def switchKey (m : ApiKeyManager) : Except String ApiKeyManager :=
  if m.apiKeys.length = 0 then .error "No API keys available"
  else .ok { m with currentKeyIndex := (m.currentKeyIndex + 1) % m.apiKeys.length }

/-- `hasKeys()`. -/
def hasKeys (m : ApiKeyManager) : Bool := m.apiKeys.length > 0

/-- `reset()`. -/
def reset (m : ApiKeyManager) : ApiKeyManager := { m with currentKeyIndex := 0 }

/-- `getKeyCount()`. -/
def getKeyCount (m : ApiKeyManager) : Nat := m.apiKeys.length

/-- `getCurrentKeyIndex()`. -/
def getCurrentKeyIndex (m : ApiKeyManager) : Nat := m.currentKeyIndex

/-- Iterated successful rotation: the cursor after `n` calls to `switchKey`. -/
def switchKeyIter (m : ApiKeyManager) : Nat → ApiKeyManager
  | 0 => m
  | n + 1 => match (switchKeyIter m n).switchKey with
    | .ok m2 => m2
    | .error _ => switchKeyIter m n

/-- The list of cursor positions visited by `n` consecutive `switchKey`
calls, in order. -/
def visitedIndices (m : ApiKeyManager) (n : Nat) : List Nat :=
  (List.range n).map fun i => (switchKeyIter m (i + 1)).currentKeyIndex

end ApiKeyManager

/-! ### Rotation lemmas -/

theorem switchKeyIter_spec (m : ApiKeyManager)
    (hidx : m.currentKeyIndex < m.apiKeys.length) (n : Nat) :
    (m.switchKeyIter n).apiKeys = m.apiKeys ∧
      (m.switchKeyIter n).currentKeyIndex =
        (m.currentKeyIndex + n) % m.apiKeys.length := by
  induction n with
  | zero =>
    exact ⟨rfl, by simp [ApiKeyManager.switchKeyIter, Nat.mod_eq_of_lt hidx]⟩
  | succ n ih =>
    have hpos : (m.switchKeyIter n).apiKeys.length ≠ 0 := by rw [ih.1]; omega
    have hstep : m.switchKeyIter (n + 1) = { m.switchKeyIter n with
        currentKeyIndex :=
          ((m.switchKeyIter n).currentKeyIndex + 1) % (m.switchKeyIter n).apiKeys.length } := by
      simp only [ApiKeyManager.switchKeyIter, ApiKeyManager.switchKey, if_neg hpos]
    rw [hstep]
    refine ⟨ih.1, ?_⟩
    simp only [ih.1, ih.2, Nat.mod_add_mod]
    rw [Nat.add_assoc]

/-- C7: `switchKey` advances the cursor by exactly one modulo the pool size;
`N` consecutive calls visit every index exactly once and return the cursor to
its starting value. -/
theorem C7_switchKey_rotation (m : ApiKeyManager)
    (hN : 0 < m.apiKeys.length) (hidx : m.currentKeyIndex < m.apiKeys.length) :
    (∀ m2, m.switchKey = .ok m2 →
        m2.currentKeyIndex = (m.currentKeyIndex + 1) % m.apiKeys.length ∧
        m2.apiKeys = m.apiKeys) ∧
    (m.visitedIndices m.apiKeys.length).Perm (List.range m.apiKeys.length) ∧
    (m.switchKeyIter m.apiKeys.length).currentKeyIndex = m.currentKeyIndex := by
  set N := m.apiKeys.length with hNdef
  refine ⟨?_, ?_, ?_⟩
  · intro m2 h
    simp only [ApiKeyManager.switchKey, show N ≠ 0 from by omega, if_false] at h
    cases h
    exact ⟨rfl, rfl⟩
  · have hvis : m.visitedIndices N =
        (List.range N).map fun i => (m.currentKeyIndex + (i + 1)) % N := by
      unfold ApiKeyManager.visitedIndices
      exact List.map_congr_left fun i _ => (switchKeyIter_spec m hidx (i + 1)).2
    rw [hvis]
    have hinj : ∀ i ∈ List.range N, ∀ j ∈ List.range N,
        ((m.currentKeyIndex + (i + 1)) % N = (m.currentKeyIndex + (j + 1)) % N) → i = j := by
      intro i hi j hj hmod
      rw [List.mem_range] at hi hj
      have h1 : (m.currentKeyIndex + 1) + i ≡ (m.currentKeyIndex + 1) + j [MOD N] := by
        unfold Nat.ModEq
        rw [show m.currentKeyIndex + 1 + i = m.currentKeyIndex + (i + 1) from by omega,
          show m.currentKeyIndex + 1 + j = m.currentKeyIndex + (j + 1) from by omega]
        exact hmod
      have h2 : i ≡ j [MOD N] := Nat.ModEq.add_left_cancel' _ h1
      unfold Nat.ModEq at h2
      rwa [Nat.mod_eq_of_lt hi, Nat.mod_eq_of_lt hj] at h2
    have hnodup : ((List.range N).map fun i => (m.currentKeyIndex + (i + 1)) % N).Nodup :=
      (List.nodup_range N).map_on hinj
    have hsub : ((List.range N).map fun i => (m.currentKeyIndex + (i + 1)) % N) ⊆
        List.range N := by
      intro x hx
      simp only [List.mem_map, List.mem_range] at hx
      obtain ⟨i, _, rfl⟩ := hx
      exact List.mem_range.mpr (Nat.mod_lt _ hN)
    exact (List.subperm_of_subset hnodup hsub).perm_of_length_le
      (by simp)
  · rw [(switchKeyIter_spec m hidx N).2, Nat.add_mod_right]
    exact Nat.mod_eq_of_lt hidx

/-- Concrete three-key pool used to instantiate `C7_switchKey_rotation`. -/
def c7mgr : ApiKeyManager := { apiKeys := ["k0", "k1", "k2"], currentKeyIndex := 1 }

/-- Witness for C7 at a pool of size 3 starting from index 1. -/
theorem C7_switchKey_rotation_witness :
    (c7mgr.visitedIndices 3).Perm (List.range 3) ∧
      (c7mgr.switchKeyIter 3).currentKeyIndex = 1 := by
  have h := C7_switchKey_rotation c7mgr (by decide) (by decide)
  exact ⟨h.2.1, h.2.2⟩

/-! ## OpenAIService quota pacing (`src/services/ai/OpenAIService.ts`)

`waitForRateLimit` inspects the cached `ApiLimits` from the last quota probe:
a no-op unless the remaining request count is exhausted, in which case it
parses the reset interval (`"60s"`-style) into milliseconds, sleeps for that
long and probes the quota endpoint again. -/

/-- Replace only the first occurrence of `pat` (JS `String.replace` with a
string pattern). -/
def replaceFirstChars (pat rep : List Char) : List Char → List Char
  | [] => []
  | c :: cs =>
    if charsStartWith pat (c :: cs) && !pat.isEmpty then rep ++ List.drop (pat.length - 1) cs
    else c :: replaceFirstChars pat rep cs

/-- JS `s.replace(pat, rep)` with a string pattern: first occurrence only. -/
def jsReplaceFirst (s pat rep : String) : String :=
  ⟨replaceFirstChars pat.toList rep.toList s.toList⟩

/-- The `rate_limit` payload of the quota endpoint (`ApiLimits.rate_limit`). -/
structure RateLimit where
  requests : Int
  interval : String

/-- The cached `ApiLimits` quota state (credits not relevant here). -/
structure ApiLimits where
  rate_limit : RateLimit

/-- Observable behaviour of one `waitForRateLimit()` call: either it returns
straight away, or it sleeps `ms` milliseconds (`none` models `NaN` from an
unparseable interval) and, when `reprobe` is set, calls `checkApiLimits()`
again. -/
inductive PacingTrace
  | noop
  | paced (ms : Option Int) (reprobe : Bool)
deriving DecidableEq

/-- `OpenAIService.waitForRateLimit`, as a function of the cached quota
state (`null` modelled as `none`). -/
def waitForRateLimit (apiLimits : Option ApiLimits) : PacingTrace :=
  match apiLimits with
  | none => .noop
  | some lim =>
    if lim.rate_limit.requests ≤ 0 then
      .paced ((jsParseInt (jsReplaceFirst lim.rate_limit.interval "s" "")).map (· * 1000)) true
    else .noop

/-- `OpenAIService.decrementRequestCount`. -/
def decrementRequestCount (apiLimits : Option ApiLimits) : Option ApiLimits :=
  match apiLimits with
  | none => none
  | some lim =>
    some { lim with rate_limit := { lim.rate_limit with requests := max 0 (lim.rate_limit.requests - 1) } }

/-- C9: pacing is a no-op if no quota state is cached or requests remain;
with `requests <= 0` it parses the interval (`"60s"` gives 60000 ms), sleeps
exactly that long and re-probes the quota endpoint. -/
theorem C9_waitForRateLimit_pacing (apiLimits : Option ApiLimits) :
    (apiLimits = none → waitForRateLimit apiLimits = .noop) ∧
    (∀ l, apiLimits = some l → 0 < l.rate_limit.requests →
      waitForRateLimit apiLimits = .noop) ∧
    (∀ l, apiLimits = some l → l.rate_limit.requests ≤ 0 →
      l.rate_limit.interval = "60s" →
      waitForRateLimit apiLimits = .paced (some 60000) true) := by
  refine ⟨?_, ?_, ?_⟩
  · rintro rfl
    rfl
  · rintro l rfl hpos
    simp only [waitForRateLimit, if_neg (by omega : ¬l.rate_limit.requests ≤ 0)]
  · rintro l rfl hle hint
    simp only [waitForRateLimit, if_pos hle, hint]
    rfl

/-- Witness for C9: quota state with zero remaining requests and a 60-second
interval sleeps 60000 ms and re-probes; a positive count is a no-op. -/
theorem C9_waitForRateLimit_pacing_witness :
    waitForRateLimit (some ⟨⟨0, "60s"⟩⟩) = .paced (some 60000) true ∧
      waitForRateLimit (some ⟨⟨5, "60s"⟩⟩) = .noop ∧
      waitForRateLimit none = .noop := by
  refine ⟨?_, ?_, ?_⟩
  · exact (C9_waitForRateLimit_pacing (some ⟨⟨0, "60s"⟩⟩)).2.2 _ rfl (by norm_num) rfl
  · exact (C9_waitForRateLimit_pacing (some ⟨⟨5, "60s"⟩⟩)).2.1 _ rfl (by norm_num)
  · exact (C9_waitForRateLimit_pacing none).1 rfl

/-! ## OllamaService retry wrapper (`src/api/src/services/ai/OllamaService.ts`)

`executeWithRetry` re-invokes a failing thunk with a bounded retry budget,
treating `ModelNotFoundError` and `TranslationTimeoutError` as
non-retryable, with linearly growing backoff
(`retryDelay * (maxRetries - retries + 1)`). -/

/-- Error taxonomy thrown by the wrapped Ollama call. -/
inductive OErrKind
  | modelNotFound
  | timeout
  | serviceUnavailable
  | translationFailed
deriving DecidableEq

/-- Outcome of one invocation of the wrapped thunk, supplied by an oracle
indexed by invocation number. -/
inductive FnResult (α : Type)
  | ok (v : α)
  | err (k : OErrKind)

/-- Observable run of `executeWithRetry`: final outcome, number of thunk
invocations, and the sequence of backoff delays slept between them. -/
structure RetryRun (α : Type) where
  result : Except OErrKind α
  calls : Nat
  delays : List Nat

/-- `OllamaService.executeWithRetry`, with the thunk's behaviour given by
`res` (outcome of the nth invocation).  `retries` is the remaining-budget
parameter (defaulted to `maxRetries` at the entry point); `callIdx` counts
invocations already made. -/
def executeWithRetry {α : Type} (res : Nat → FnResult α) (maxRetries retryDelay : Nat)
    (callIdx retries : Nat) : RetryRun α :=
  match res callIdx with
  | .ok v => ⟨.ok v, 1, []⟩
  | .err k =>
    match retries with
    | 0 => ⟨.error k, 1, []⟩
    | r + 1 =>
      if k = .modelNotFound ∨ k = .timeout then ⟨.error k, 1, []⟩
      else
        let d := retryDelay * (maxRetries - (r + 1) + 1)
        let rest := executeWithRetry res maxRetries retryDelay (callIdx + 1) r
        ⟨rest.result, rest.calls + 1, d :: rest.delays⟩
termination_by retries

/-- The public entry point: `executeWithRetry(fn)` starts with the full
`maxRetries` budget. -/
def executeWithRetryTop {α : Type} (res : Nat → FnResult α) (maxRetries retryDelay : Nat) :
    RetryRun α :=
  executeWithRetry res maxRetries retryDelay 0 maxRetries

theorem executeWithRetry_ok {α : Type} (res : Nat → FnResult α)
    (maxRetries retryDelay callIdx retries : Nat) (v : α)
    (hres : res callIdx = .ok v) :
    executeWithRetry res maxRetries retryDelay callIdx retries = ⟨.ok v, 1, []⟩ := by
  rw [executeWithRetry, hres]

theorem executeWithRetry_nonretryable {α : Type} (res : Nat → FnResult α)
    (maxRetries retryDelay callIdx retries : Nat) (k : OErrKind)
    (hres : res callIdx = .err k) (hk : k = .modelNotFound ∨ k = .timeout) :
    executeWithRetry res maxRetries retryDelay callIdx retries = ⟨.error k, 1, []⟩ := by
  rw [executeWithRetry, hres]
  match retries with
  | 0 => rfl
  | r + 1 => simp [hk]

theorem executeWithRetry_err_zero {α : Type} (res : Nat → FnResult α)
    (maxRetries retryDelay callIdx : Nat) (k : OErrKind)
    (hres : res callIdx = .err k) :
    executeWithRetry res maxRetries retryDelay callIdx 0 = ⟨.error k, 1, []⟩ := by
  rw [executeWithRetry, hres]

theorem executeWithRetry_err_retry {α : Type} (res : Nat → FnResult α)
    (maxRetries retryDelay callIdx r : Nat) (k : OErrKind)
    (hres : res callIdx = .err k) (hk : ¬(k = .modelNotFound ∨ k = .timeout)) :
    executeWithRetry res maxRetries retryDelay callIdx (r + 1) =
      ⟨(executeWithRetry res maxRetries retryDelay (callIdx + 1) r).result,
        (executeWithRetry res maxRetries retryDelay (callIdx + 1) r).calls + 1,
        retryDelay * (maxRetries - (r + 1) + 1) ::
          (executeWithRetry res maxRetries retryDelay (callIdx + 1) r).delays⟩ := by
  rw [executeWithRetry, hres]
  simp [hk]

theorem executeWithRetry_calls_le {α : Type} (res : Nat → FnResult α)
    (maxRetries retryDelay callIdx : Nat) (retries : Nat) :
    (executeWithRetry res maxRetries retryDelay callIdx retries).calls ≤ retries + 1 := by
  induction retries generalizing callIdx with
  | zero =>
    cases hE : res callIdx with
    | ok v => rw [executeWithRetry_ok res maxRetries retryDelay callIdx 0 v hE]
    | err k => rw [executeWithRetry_err_zero res maxRetries retryDelay callIdx k hE]
  | succ r ih =>
    cases hE : res callIdx with
    | ok v =>
      rw [executeWithRetry_ok res maxRetries retryDelay callIdx (r + 1) v hE]
      exact Nat.le_add_left 1 _
    | err k =>
      by_cases hk : k = .modelNotFound ∨ k = .timeout
      · rw [executeWithRetry_nonretryable res maxRetries retryDelay callIdx (r + 1) k hE hk]
        exact Nat.le_add_left 1 _
      · rw [executeWithRetry_err_retry res maxRetries retryDelay callIdx r k hE hk]
        have h2 := ih (callIdx + 1)
        show (executeWithRetry res maxRetries retryDelay (callIdx + 1) r).calls + 1 ≤ r + 1 + 1
        omega

theorem executeWithRetry_delays {α : Type} (res : Nat → FnResult α)
    (maxRetries retryDelay callIdx : Nat) (retries : Nat) :
    retries ≤ maxRetries →
    ∀ i, i < (executeWithRetry res maxRetries retryDelay callIdx retries).delays.length →
      (executeWithRetry res maxRetries retryDelay callIdx retries).delays.getD i 0 =
        retryDelay * (maxRetries - retries + 1 + i) := by
  induction retries generalizing callIdx with
  | zero =>
    intro _ i h
    exfalso
    cases hE : res callIdx with
    | ok v => rw [executeWithRetry_ok res maxRetries retryDelay callIdx 0 v hE] at h; simp at h
    | err k => rw [executeWithRetry_err_zero res maxRetries retryDelay callIdx k hE] at h; simp at h
  | succ r ih =>
    intro hret i h
    cases hE : res callIdx with
    | ok v =>
      rw [executeWithRetry_ok res maxRetries retryDelay callIdx (r + 1) v hE] at h
      simp at h
    | err k =>
      by_cases hk : k = .modelNotFound ∨ k = .timeout
      · rw [executeWithRetry_nonretryable res maxRetries retryDelay callIdx (r + 1) k hE hk] at h
        simp at h
      · rw [executeWithRetry_err_retry res maxRetries retryDelay callIdx r k hE hk] at h ⊢
        match i with
        | 0 => simp
        | i + 1 =>
          simp only [List.length_cons, Nat.add_lt_add_iff_right] at h
          simp only [List.getD_cons_succ]
          rw [ih (callIdx + 1) (by omega) i h]
          congr 1
          omega

/-- C8: the retry wrapper makes at most `maxRetries` additional invocations
(`maxRetries + 1` calls in total), propagates `ModelNotFound` and
`TranslationTimeout` failures immediately with zero further attempts, and
sleeps `retryDelay * n` before the nth retry. -/
theorem C8_executeWithRetry_policy {α : Type} (res : Nat → FnResult α)
    (maxRetries retryDelay : Nat) :
    (executeWithRetryTop res maxRetries retryDelay).calls ≤ maxRetries + 1 ∧
    (∀ callIdx retries k, res callIdx = .err k →
      (k = .modelNotFound ∨ k = .timeout) →
      executeWithRetry res maxRetries retryDelay callIdx retries =
        ⟨.error k, 1, []⟩) ∧
    (∀ i, i < (executeWithRetryTop res maxRetries retryDelay).delays.length →
      (executeWithRetryTop res maxRetries retryDelay).delays.getD i 0 =
        retryDelay * (i + 1)) := by
  refine ⟨executeWithRetry_calls_le res maxRetries retryDelay 0 maxRetries,
    fun callIdx retries k hres hk =>
      executeWithRetry_nonretryable res maxRetries retryDelay callIdx retries k hres hk,
    fun i h => ?_⟩
  unfold executeWithRetryTop at h ⊢
  rw [executeWithRetry_delays res maxRetries retryDelay 0 maxRetries (Nat.le_refl _) i h]
  congr 1
  omega

/-- Oracle for the C8 witness: the first two invocations fail with retryable
errors, the third succeeds. -/
def c8res : Nat → FnResult String
  | 0 => .err .serviceUnavailable
  | 1 => .err .translationFailed
  | _ => .ok "done"

/-- Oracle for the C8 witness's non-retryable leg: the first invocation
fails with `ModelNotFound`. -/
def c8resMnf : Nat → FnResult String
  | _ => .err .modelNotFound

/-- Witness for C8 with `maxRetries = 2`, `retryDelay = 3000`: three calls,
delays 3000 then 6000, and a `ModelNotFound` run stops after one call. -/
theorem C8_executeWithRetry_policy_witness :
    (executeWithRetryTop c8res 2 3000).calls ≤ 3 ∧
      executeWithRetry c8resMnf 2 3000 0 2 = ⟨.error .modelNotFound, 1, []⟩ ∧
      (0 < (executeWithRetryTop c8res 2 3000).delays.length →
        (executeWithRetryTop c8res 2 3000).delays.getD 0 0 = 3000) := by
  have h := C8_executeWithRetry_policy c8res 2 3000
  have h2 := C8_executeWithRetry_policy c8resMnf 2 3000
  refine ⟨h.1, h2.2.1 0 2 .modelNotFound rfl (Or.inl rfl), fun hlen => ?_⟩
  have := h.2.2 0 hlen
  simpa using this

/-! ## Shared request/response data model (`src/api/src/utils/types.ts`) -/

/-- `TranslationMethod`: `'local' | 'ai'` (`local` is a Lean keyword, hence
the `M` suffix). -/
inductive TMethod
  | localM
  | aiM
deriving DecidableEq

/-- `TranslationRequest`. -/
structure TranslationRequest where
  sourceLang : String
  targetLang : String
  keys : List String
  texts : Obj
  methods : Option (List TMethod) := none
  modules : Option (List String) := none
  fallbackOptions : Option (List String) := none
  aiProvider : Option String := none
deriving DecidableEq

/-- The per-key failure record pushed by `translateWithOpenRouter`. -/
structure ORKeyError where
  key : String
  error : String
  originalText : String
deriving DecidableEq

/-- Entries of the heterogeneous `errors: any[]` array of a
`TranslationResponse`. -/
inductive RespError
  | message (msg : String)
  | keyError (e : ORKeyError)
deriving DecidableEq

/-- `TranslationResponse.metadata` (optional fields as `Option`). -/
structure TranslationMetadata where
  provider : String
  model : Option String := none
  processingTime : Nat := 0
  tokensUsed : Option Nat := none
  successfulKeys : Nat
  failedKeys : Nat
  fallbackUsed : Option Bool := none
  cacheHits : Option Nat := none
  cacheMisses : Option Nat := none
deriving DecidableEq

/-- `TranslationResponse`. -/
structure TranslationResponse where
  translations : Obj
  metadata : TranslationMetadata
  errors : List RespError
deriving DecidableEq

/-! ## AiTranslationService.translateText (`src/api/src/services/ai/AiTranslationService.ts`)

The hosted-provider retry protocol.  The outer `while` loop is bounded by
`totalAttempts < maxRetriesPerKey * keyCount`, but `totalAttempts` is only
incremented in the outer `catch` — i.e. when `checkApiLimits()` /
`waitForRateLimit()` (the pre-flight) throws.  When the inner completion
loop exhausts its retries it `break`s without throwing, so the outer body
completes normally and `totalAttempts` is unchanged.  The embedding keeps
exactly that structure.  External behaviour is supplied by two oracles:
`preflight n` is the outcome of the nth pre-flight phase (`some msg` models
a throw) and `completion n` the outcome of the nth completion request.
The quota counter mutated by `decrementRequestCount` only feeds the next
pre-flight, which the oracle already covers, so it is not tracked
separately. -/

/-- Outcome of one `openai.chat.completions.create` call:
`content c` models a response whose first choice has content `c`
(`none` = missing), `exn msg` models a thrown request error. -/
inductive ChatOutcome
  | content (text : Option String)
  | exn (message : String)

/-- The environment of a `translateText` call. -/
structure TTEnv where
  keyCount : Nat
  maxRetriesPerKey : Nat
  preflight : Nat → Option String
  completion : Nat → ChatOutcome

/-- Mutable state threaded through the retry loops. -/
structure TTState where
  totalAttempts : Nat := 0
  keyIndex : Nat := 0
  completionCalls : Nat := 0
  preflightCalls : Nat := 0

/-- The inner catch's rate-limit classification:
`error.message.includes('rate limit') || includes('429') || includes('quota')`. -/
def isRateLimitMsg (msg : String) : Bool :=
  strIncludes msg "rate limit" || strIncludes msg "429" || strIncludes msg "quota"

/-- How the inner `while (retries < maxRetriesPerKey)` loop ends: either a
successful `return`, or control reaches the end of the outer `try` body
(break, or the loop condition turning false). -/
inductive InnerExit
  | returned (text : String)
  | broke

/-- Failure classification of a completion outcome: the message of the error
caught by the inner `catch`, or `none` on success
(`if (!content) throw new Error('No content in AI response')`). -/
def completionFailure : ChatOutcome → Option String
  | .content (some text) => if text = "" then some "No content in AI response" else none
  | .content none => some "No content in AI response"
  | .exn msg => some msg

/-- The successful content of a completion outcome. -/
def completionText : ChatOutcome → String
  | .content (some text) => text
  | _ => ""

/-- The inner retry loop of `translateText`; `fuel` is
`maxRetriesPerKey - retries`, so the loop ends when it reaches zero. -/
def innerLoop (env : TTEnv) : Nat → Nat → TTState → TTState × InnerExit
  | 0, _, st => (st, .broke)
  | fuel + 1, retries, st =>
    let st1 := { st with completionCalls := st.completionCalls + 1 }
    match completionFailure (env.completion st.completionCalls) with
    | none => (st1, .returned (jsTrim (completionText (env.completion st.completionCalls))))
    | some msg =>
      let retries2 := retries + 1
      if isRateLimitMsg msg || env.maxRetriesPerKey ≤ retries2 then
        ({ st1 with keyIndex := (st1.keyIndex + 1) % env.keyCount }, .broke)
      else innerLoop env fuel retries2 st1

/-- Result of `translateText` (or `outOfFuel` while the loop is still
running after `fuel` outer iterations). -/
inductive TTResult
  | success (text : String)
  | failureAllKeys
  | failureMaxAttempts
  | noKeysConfigured
  | outOfFuel
deriving DecidableEq

/-- The outer `while (totalAttempts < maxTotalAttempts)` loop of
`translateText`. -/
def translateTextLoop (env : TTEnv) : Nat → TTState → TTState × TTResult
  | 0, st => (st, .outOfFuel)
  | fuel + 1, st =>
    let maxTotal := env.maxRetriesPerKey * env.keyCount
    if st.totalAttempts < maxTotal then
      match env.preflight st.preflightCalls with
      | some _msg =>
        let st1 := { st with preflightCalls := st.preflightCalls + 1,
                             totalAttempts := st.totalAttempts + 1 }
        if maxTotal ≤ st1.totalAttempts then (st1, .failureAllKeys)
        else translateTextLoop env fuel { st1 with keyIndex := (st1.keyIndex + 1) % env.keyCount }
      | none =>
        let st1 := { st with preflightCalls := st.preflightCalls + 1 }
        match innerLoop env env.maxRetriesPerKey 0 st1 with
        | (st2, .returned text) => (st2, .success text)
        | (st2, .broke) => translateTextLoop env fuel st2
    else (st, .failureMaxAttempts)

/-- `AiTranslationService.translateText`: guard for an unconfigured pool,
then the bounded-by-`fuel` outer loop. -/
def translateText (env : TTEnv) (fuel : Nat) : TTState × TTResult :=
  if env.keyCount = 0 then ({}, .noKeysConfigured)
  else translateTextLoop env fuel {}

/-- Adversarial but perfectly ordinary environment: two configured keys,
pre-flight always succeeds, every completion request throws a plain server
error (not rate-limit classified). -/
def c1env : TTEnv where
  keyCount := 2
  maxRetriesPerKey := 3
  preflight := fun _ => none
  completion := fun _ => .exn "Internal Server Error"

theorem c1_innerLoop (st : TTState) :
    innerLoop c1env c1env.maxRetriesPerKey 0 st =
      ({ st with
          completionCalls := st.completionCalls + 1 + 1 + 1,
          keyIndex := (st.keyIndex + 1) % 2 }, .broke) := rfl

theorem c1_translateTextLoop (fuel : Nat) :
    ∀ st : TTState, st.totalAttempts = 0 →
      (translateTextLoop c1env fuel st).2 = .outOfFuel ∧
        (translateTextLoop c1env fuel st).1.completionCalls =
          st.completionCalls + 3 * fuel ∧
        (translateTextLoop c1env fuel st).1.totalAttempts = 0 := by
  induction fuel with
  | zero => intro st h0; exact ⟨rfl, by simp [translateTextLoop], by simpa [translateTextLoop]⟩
  | succ fuel ih =>
    intro st h0
    have hcond : st.totalAttempts < c1env.maxRetriesPerKey * c1env.keyCount := by
      rw [h0]; decide
    have key : translateTextLoop c1env (fuel + 1) st =
        translateTextLoop c1env fuel { st with
          preflightCalls := st.preflightCalls + 1,
          completionCalls := st.completionCalls + 1 + 1 + 1,
          keyIndex := (st.keyIndex + 1) % 2 } := by
      simp only [translateTextLoop]
      rw [if_pos hcond]
      rfl
    rw [key]
    have := ih { st with
        preflightCalls := st.preflightCalls + 1,
        completionCalls := st.completionCalls + 1 + 1 + 1,
        keyIndex := (st.keyIndex + 1) % 2 } (by simpa using h0)
    refine ⟨this.1, ?_, this.2.2⟩
    rw [this.2.1]
    show st.completionCalls + 1 + 1 + 1 + 3 * fuel = st.completionCalls + 3 * (fuel + 1)
    ring

/-- C1 (refuted; the claim describes the intended bound, the code misses
it): with 2 configured credentials and every completion request failing
with a non-rate-limit server error while the pre-flight quota checks
succeed, `translateText` never terminates.  `totalAttempts` is only
incremented when the pre-flight throws, so after any number `fuel` of outer
iterations the loop is still running, has issued `3 * fuel` completion
requests — exceeding the claimed bound
`maxRetriesPerKey * poolSize = 6` from `fuel = 3` on — and has not raised
`AllCredentialsExhausted`. -/
theorem C1_translateText_unbounded :
    (∀ fuel, (translateText c1env fuel).2 = .outOfFuel ∧
      (translateText c1env fuel).1.completionCalls = 3 * fuel ∧
      (translateText c1env fuel).1.totalAttempts = 0) ∧
    (translateText c1env 3).1.completionCalls = 9 ∧
    c1env.maxRetriesPerKey * c1env.keyCount = 6 := by
  have hmain : ∀ fuel, (translateText c1env fuel).2 = .outOfFuel ∧
      (translateText c1env fuel).1.completionCalls = 3 * fuel ∧
      (translateText c1env fuel).1.totalAttempts = 0 := by
    intro fuel
    have h2 := c1_translateTextLoop fuel {} rfl
    have hne : ¬(c1env.keyCount = 0) := by decide
    simpa [translateText, hne] using h2
  exact ⟨hmain, by simpa using (hmain 3).2.1, rfl⟩

/-! ## AiTranslationService.translateWithOpenRouter

The per-key loop of the OpenRouter path: on a per-key failure the original
source text is kept as the translation, a `{key, error, originalText}`
record is pushed, and the loop continues.  `tr i` is the outcome of the
ith `translateText` call. -/

/-- The `for (const key of request.keys)` loop, threading the
`translations` object and `errors` array. -/
def orLoop (tr : Nat → Except String String) (texts : Obj) :
    List String → Nat → Obj → List ORKeyError → Obj × List ORKeyError
  | [], _, trs, errs => (trs, errs)
  | k :: ks, i, trs, errs =>
    match tr i with
    | .ok t => orLoop tr texts ks (i + 1) (objSet trs k t) errs
    | .error e =>
      orLoop tr texts ks (i + 1) (objSet trs k (objGetD texts k))
        (errs ++ [⟨k, e, objGetD texts k⟩])

/-- The default `config.api.openrouter.model`. -/
def openrouterModel : String := "meta-llama/llama-3.1-405b-instruct:free"

/-- `AiTranslationService.translateWithOpenRouter`. -/
def translateWithOpenRouter (tr : Nat → Except String String)
    (req : TranslationRequest) : TranslationResponse :=
  let out := orLoop tr req.texts req.keys 0 [] []
  { translations := out.1
    metadata :=
      { provider := "openrouter"
        model := some openrouterModel
        processingTime := 0
        successfulKeys := objSize out.1 - out.2.length
        failedKeys := out.2.length
        fallbackUsed := some (decide (out.2.length > 0)) }
    errors := out.2.map .keyError }

/-! ### Lemmas about the OpenRouter per-key loop -/

theorem objHas_iff (m : Obj) (k : String) : objHas m k = true ↔ k ∈ objKeys m := by
  unfold objHas objKeys
  simp [List.any_eq_true, List.mem_map]

theorem objHas_objSet_self (m : Obj) (k v : String) : objHas (objSet m k v) k = true := by
  rw [objHas_iff, mem_objKeys_objSet_iff]
  exact Or.inr rfl

theorem objHas_objSet_of_has (m : Obj) (k v k' : String) (h : objHas m k' = true) :
    objHas (objSet m k v) k' = true := by
  rw [objHas_iff, mem_objKeys_objSet_iff]
  exact Or.inl ((objHas_iff m k').mp h)

theorem orLoop_fst_has (tr : Nat → Except String String) (texts : Obj) :
    ∀ (ks : List String) (i : Nat) (trs : Obj) (errs : List ORKeyError) (k : String),
      (k ∈ ks ∨ objHas trs k = true) →
      objHas (orLoop tr texts ks i trs errs).1 k = true := by
  intro ks
  induction ks with
  | nil =>
    intro i trs errs k hk
    rcases hk with h | h
    · simp at h
    · simpa [orLoop] using h
  | cons k0 ks ih =>
    intro i trs errs k hk
    unfold orLoop
    have step : ∀ (v : String) (errs2 : List ORKeyError),
        objHas (orLoop tr texts ks (i + 1) (objSet trs k0 v) errs2).1 k = true := by
      intro v errs2
      apply ih
      rcases hk with h | h
      · rcases List.mem_cons.mp h with rfl | h2
        · exact Or.inr (objHas_objSet_self trs k v)
        · exact Or.inl h2
      · exact Or.inr (objHas_objSet_of_has trs k0 v k h)
    cases tr i with
    | ok t => exact step t errs
    | error e => exact step (objGetD texts k0) (errs ++ [⟨k0, e, objGetD texts k0⟩])

theorem orLoop_fst_keys_subset (tr : Nat → Except String String) (texts : Obj) :
    ∀ (ks : List String) (i : Nat) (trs : Obj) (errs : List ORKeyError) (x : String),
      x ∈ objKeys (orLoop tr texts ks i trs errs).1 → x ∈ objKeys trs ∨ x ∈ ks := by
  intro ks
  induction ks with
  | nil =>
    intro i trs errs x hx
    exact Or.inl (by simpa [orLoop] using hx)
  | cons k0 ks ih =>
    intro i trs errs x hx
    unfold orLoop at hx
    have step : ∀ (v : String) (errs2 : List ORKeyError),
        x ∈ objKeys (orLoop tr texts ks (i + 1) (objSet trs k0 v) errs2).1 →
        x ∈ objKeys trs ∨ x ∈ k0 :: ks := by
      intro v errs2 h
      rcases ih (i + 1) (objSet trs k0 v) errs2 x h with h2 | h2
      · rcases (mem_objKeys_objSet_iff trs k0 v x).mp h2 with h3 | rfl
        · exact Or.inl h3
        · exact Or.inr (List.mem_cons_self _ _)
      · exact Or.inr (List.mem_cons_of_mem _ h2)
    cases htr : tr i with
    | ok t => rw [htr] at hx; exact step t errs hx
    | error e => rw [htr] at hx; exact step (objGetD texts k0) _ hx

theorem orLoop_fst_get_not_mem (tr : Nat → Except String String) (texts : Obj) :
    ∀ (ks : List String) (i : Nat) (trs : Obj) (errs : List ORKeyError) (k : String),
      k ∉ ks → objGet (orLoop tr texts ks i trs errs).1 k = objGet trs k := by
  intro ks
  induction ks with
  | nil => intro i trs errs k _; rfl
  | cons k0 ks ih =>
    intro i trs errs k hk
    have hne : k ≠ k0 := fun h => hk (h ▸ List.mem_cons_self k0 ks)
    have hnm : k ∉ ks := fun h => hk (List.mem_cons_of_mem _ h)
    unfold orLoop
    cases tr i with
    | ok t => rw [ih (i + 1) _ _ k hnm, objGet_objSet_ne trs k0 t k hne]
    | error e => rw [ih (i + 1) _ _ k hnm, objGet_objSet_ne trs k0 _ k hne]

theorem orLoop_snd_acc (tr : Nat → Except String String) (texts : Obj) :
    ∀ (ks : List String) (i : Nat) (trs : Obj) (errs : List ORKeyError),
      (orLoop tr texts ks i trs errs).2 = errs ++ (orLoop tr texts ks i trs []).2 := by
  intro ks
  induction ks with
  | nil => intro i trs errs; simp [orLoop]
  | cons k0 ks ih =>
    intro i trs errs
    unfold orLoop
    cases tr i with
    | ok t => rw [ih, ih (i + 1) (objSet trs k0 t) []]
    | error e =>
      simp only [List.nil_append]
      rw [ih, ih (i + 1) (objSet trs k0 (objGetD texts k0)) [⟨k0, e, objGetD texts k0⟩]]
      simp

theorem orLoop_failed_key (tr : Nat → Except String String) (texts : Obj) :
    ∀ (ks : List String) (i0 : Nat) (trs : Obj) (errs : List ORKeyError),
      ks.Nodup →
      ∀ (j : Nat) (h : j < ks.length) (e : String), tr (i0 + j) = .error e →
        objGet (orLoop tr texts ks i0 trs errs).1 (ks.get ⟨j, h⟩) =
          some (objGetD texts (ks.get ⟨j, h⟩)) ∧
        (⟨ks.get ⟨j, h⟩, e, objGetD texts (ks.get ⟨j, h⟩)⟩ : ORKeyError) ∈
          (orLoop tr texts ks i0 trs errs).2 := by
  intro ks
  induction ks with
  | nil =>
    intro i0 trs errs _ j h
    exact absurd h (by simp)
  | cons k0 ks ih =>
    intro i0 trs errs hnd j h e htr
    have hk0 : k0 ∉ ks := (List.nodup_cons.mp hnd).1
    have hndt : ks.Nodup := (List.nodup_cons.mp hnd).2
    match j with
    | 0 =>
      rw [Nat.add_zero] at htr
      simp only [List.get]
      unfold orLoop
      rw [htr]
      constructor
      · rw [orLoop_fst_get_not_mem tr texts ks (i0 + 1) _ _ k0 hk0]
        exact objGet_objSet_self trs k0 _
      · rw [orLoop_snd_acc]
        exact List.mem_append.mpr (Or.inl (List.mem_append.mpr (Or.inr (by simp))))
    | j + 1 =>
      have h2 : j < ks.length := by simpa using h
      have htr2 : tr ((i0 + 1) + j) = .error e := by
        rw [show (i0 + 1) + j = i0 + (j + 1) from by omega]
        exact htr
      simp only [List.get]
      unfold orLoop
      cases tr i0 with
      | ok t => exact ih (i0 + 1) (objSet trs k0 t) errs hndt j h2 e htr2
      | error e0 => exact ih (i0 + 1) (objSet trs k0 _) _ hndt j h2 e htr2

theorem orLoop_snd_ne_nil_iff (tr : Nat → Except String String) (texts : Obj) :
    ∀ (ks : List String) (i0 : Nat) (trs : Obj),
      (orLoop tr texts ks i0 trs []).2 ≠ [] ↔
        ∃ j, j < ks.length ∧ ∃ e, tr (i0 + j) = .error e := by
  intro ks
  induction ks with
  | nil =>
    intro i0 trs
    simp [orLoop]
  | cons k0 ks ih =>
    intro i0 trs
    unfold orLoop
    cases htr : tr i0 with
    | ok t =>
      rw [ih (i0 + 1) (objSet trs k0 t)]
      constructor
      · rintro ⟨j, hj, e, he⟩
        exact ⟨j + 1, by simpa using hj, e, by
          rw [show i0 + (j + 1) = (i0 + 1) + j from by omega]; exact he⟩
      · rintro ⟨j, hj, e, he⟩
        match j with
        | 0 => rw [Nat.add_zero] at he; rw [htr] at he; cases he
        | j + 1 =>
          exact ⟨j, by simpa using hj, e, by
            rw [show (i0 + 1) + j = i0 + (j + 1) from by omega]; exact he⟩
    | error e =>
      rw [orLoop_snd_acc]
      constructor
      · intro _
        exact ⟨0, by simp, e, by simpa using htr⟩
      · intro _
        simp

/-- C10: the OpenRouter path returns a translations map total over the
requested keys; a key whose `translateText` call failed is mapped to its
unchanged original source text while a `{key, error, originalText}` record
is appended to `errors`, the loop continuing; and `fallbackUsed` is `true`
exactly when at least one key failed. -/
theorem C10_translateWithOpenRouter_total (tr : Nat → Except String String)
    (req : TranslationRequest) (hnd : req.keys.Nodup) :
    (∀ k, k ∈ req.keys → objHas (translateWithOpenRouter tr req).translations k = true) ∧
    (∀ (j : Nat) (h : j < req.keys.length) (e : String), tr j = .error e →
      objGet (translateWithOpenRouter tr req).translations (req.keys.get ⟨j, h⟩) =
        some (objGetD req.texts (req.keys.get ⟨j, h⟩)) ∧
      RespError.keyError ⟨req.keys.get ⟨j, h⟩, e, objGetD req.texts (req.keys.get ⟨j, h⟩)⟩ ∈
        (translateWithOpenRouter tr req).errors) ∧
    ((translateWithOpenRouter tr req).metadata.fallbackUsed = some true ↔
      ∃ j, j < req.keys.length ∧ ∃ e, tr j = .error e) := by
  refine ⟨?_, ?_, ?_⟩
  · intro k hk
    exact orLoop_fst_has tr req.texts req.keys 0 [] [] k (Or.inl hk)
  · intro j h e htr
    have h2 := orLoop_failed_key tr req.texts req.keys 0 [] [] hnd j h e
      (by rw [Nat.zero_add]; exact htr)
    exact ⟨h2.1, List.mem_map.mpr ⟨_, h2.2, rfl⟩⟩
  · have hiff := orLoop_snd_ne_nil_iff tr req.texts req.keys 0 []
    constructor
    · intro hsome
      have h3 : some (decide ((orLoop tr req.texts req.keys 0 [] []).2.length > 0)) =
          some true := hsome
      have hlen : (orLoop tr req.texts req.keys 0 [] []).2.length > 0 :=
        of_decide_eq_true (Option.some.inj h3)
      have hne : (orLoop tr req.texts req.keys 0 [] []).2 ≠ [] := by
        intro hnil
        rw [hnil] at hlen
        simp at hlen
      have := hiff.mp hne
      simpa [Nat.zero_add] using this
    · intro hex
      have hne := hiff.mpr (by simpa [Nat.zero_add] using hex)
      have hlen : 0 < (orLoop tr req.texts req.keys 0 [] []).2.length :=
        List.length_pos.mpr hne
      show some (decide ((orLoop tr req.texts req.keys 0 [] []).2.length > 0)) = some true
      simp [hlen]

/-- Concrete request for the C10 witness. -/
def c10req : TranslationRequest where
  sourceLang := "en"
  targetLang := "ru"
  keys := ["a", "b"]
  texts := [("a", "Hello"), ("b", "World")]

/-- Oracle for the C10 witness: key `a` translates, key `b` fails. -/
def c10tr : Nat → Except String String
  | 0 => .ok "Privet"
  | _ => .error "server exploded"

/-- Witness for C10: the failed key `b` is still mapped (to its original
text `World`), its error record is collected, and `fallbackUsed` is true. -/
theorem C10_translateWithOpenRouter_total_witness :
    objHas (translateWithOpenRouter c10tr c10req).translations "b" = true ∧
      objGet (translateWithOpenRouter c10tr c10req).translations "b" = some "World" ∧
      RespError.keyError ⟨"b", "server exploded", "World"⟩ ∈
        (translateWithOpenRouter c10tr c10req).errors ∧
      (translateWithOpenRouter c10tr c10req).metadata.fallbackUsed = some true := by
  have h := C10_translateWithOpenRouter_total c10tr c10req (by decide)
  have h2 := h.2.1 1 (by decide) "server exploded" rfl
  exact ⟨h.1 "b" (by decide), h2.1, h2.2, h.2.2.mpr ⟨1, by decide, "server exploded", rfl⟩⟩

/-! ## OllamaService response recovery (`src/api/src/services/ai/OllamaService.ts`)

`parseTranslationResponse` extracts the response text, locates a
`{...}` substring (the `/\x7b[\s\S]*\x7d/` match) for JSON parsing, and on a
`TranslationError` whose message mentions `JSON` falls back to
`fallbackParseResponse`, a line-oriented scanner for `"key": "value"`
lines.  The JSON.parse path (with its `cleanJsonResponse` repair
heuristics) continues outside the modelled fragment and is represented by
the explicit `jsonPath` outcome; no theorem below depends on it.
Note: in the source, the `catch` block passes `responseText` to
`fallbackParseResponse` although that `const` is declared inside the `try`
block and is out of scope in the `catch` — the embedding resolves the name
to the extracted response text, which is the only possible referent. -/

/-- The fields `parseTranslationResponse` probes on the raw Ollama reply:
`response.response || response.message?.content || response.content || ''`. -/
structure OllamaRaw where
  response : Option String := none
  messageContent : Option String := none
  content : Option String := none

/-- JS `a || b || ... || ''` over possibly-undefined strings. -/
def firstTruthy : List (Option String) → String
  | [] => ""
  | some s :: rest => if s = "" then firstTruthy rest else s
  | none :: rest => firstTruthy rest

/-- The `responseText` extraction. -/
def extractResponseText (r : OllamaRaw) : String :=
  firstTruthy [r.response, r.messageContent, r.content]

/-- Does `/\x7b[\s\S]*\x7d/` match: is there a `{` with a `}` somewhere
after it? -/
def hasOpenClose : List Char → Bool
  | [] => false
  | c :: rest => if c = lbrace then rest.contains rbrace else hasOpenClose rest

/-- Whether the response text contains a `{...}` substring. -/
def hasJsonSubstring (s : String) : Bool := hasOpenClose s.toList

/-- The matched `{...}` substring: first `{` through the last `}`. -/
def jsonMatchString (s : String) : String :=
  ⟨(((s.toList.dropWhile fun c => c ≠ lbrace).reverse.dropWhile
      fun c => c ≠ rbrace).reverse)⟩

/-- Split the characters of a line at the first `"`, returning the chars
before it and the remainder after it. -/
def splitAtQuote : List Char → Option (List Char × List Char)
  | [] => none
  | c :: rest =>
    if c = quoteC then some ([], rest)
    else (splitAtQuote rest).map fun p => (c :: p.1, p.2)

/-- The regex `^"([^"]+)":\s*"([^"]*)"` applied to a trimmed line: a quoted
non-empty key, a colon, optional whitespace, then a quoted (possibly empty)
value; trailing characters are ignored. -/
def regexKeyValue (cs : List Char) : Option (String × String) :=
  match cs with
  | [] => none
  | c :: rest =>
    if c = quoteC then
      match splitAtQuote rest with
      | none => none
      | some (key, rest1) =>
        if key.isEmpty then none
        else
          match rest1 with
          | ':' :: rest2 =>
            match rest2.dropWhile jsIsWs with
            | [] => none
            | q :: rest3 =>
              if q = quoteC then
                match splitAtQuote rest3 with
                | none => none
                | some (value, _) => some (⟨key⟩, ⟨value⟩)
              else none
          | _ => none
    else none

/-- The line scan of `fallbackParseResponse`: for every line whose trimmed
form starts with `"` and contains `:`, extract the `"key": "value"` pair
(unescaping `\"` in the value) into `keyTranslations`. -/
def fallbackCollect (lines : List String) : Obj :=
  lines.foldl
    (fun acc line =>
      let lt := jsTrim line
      if jsStartsWith lt "\"" && strHasChar lt ':' then
        match regexKeyValue lt.toList with
        | some (k, v) => objSet acc k (jsReplaceAll v "\\\"" "\"")
        | none => acc
      else acc)
    []

/-- The CJK language set of `postProcessTranslation`. -/
def cjkLangs : List String := ["zh-CN", "zh-TW", "ja", "ko"]

/-- `OllamaService.postProcessTranslation`: trim, unescape, CJK whitespace
stripping, truncation at 1000 characters. -/
def postProcessTranslation (text targetLang : String) : String :=
  let p1 := jsTrim text
  let p2 := jsReplaceAll p1 "\\\"" "\""
  let p3 := jsReplaceAll p2 "\\n" "\n"
  let p4 := jsReplaceAll p3 "\\t" "\t"
  let p5 := if targetLang ∈ cjkLangs then (⟨p4.toList.filter fun c => !jsIsWs c⟩ : String) else p4
  if p5.length > 1000 then (⟨p5.toList.take 997⟩ : String) ++ "..." else p5

/-- Result record of the two key-matching loops (`TranslationResult` shape:
accepted translations plus per-key failure messages). -/
structure OllamaParsed where
  successfulTranslations : Obj
  failedTranslations : List String
deriving DecidableEq

/-- The `for (const key of request.keys)` loop of `fallbackParseResponse`:
keys with a truthy entry in `keyTranslations` are accepted (post-processed),
the rest are recorded as failures. -/
def fallbackKeysLoop (kt : Obj) (tgt : String) :
    List String → Obj → List String → Obj × List String
  | [], s, f => (s, f)
  | k :: ks, s, f =>
    if jsTruthy (objGet kt k) then
      fallbackKeysLoop kt tgt ks (objSet s k (postProcessTranslation (objGetD kt k) tgt)) f
    else fallbackKeysLoop kt tgt ks s (f ++ ["Fallback parsing: missing translation for key: " ++ k])

/-- `OllamaService.fallbackParseResponse`. -/
def fallbackParseResponse (responseText : String) (req : TranslationRequest) :
    Except String OllamaParsed :=
  let kt := fallbackCollect (jsSplitChar responseText '\n')
  let step := fallbackKeysLoop kt req.targetLang req.keys [] []
  if objSize step.1 > 0 then .ok ⟨step.1, step.2⟩
  else .error "Fallback parsing also failed to extract translations"

/-- The key-filtering loop of `parseTranslationResponse` (lines 286-302),
applied to an arbitrary parsed JSON map: requested keys with a truthy entry
are accepted, the rest recorded as `Missing translation for key: K`. -/
def filterKeysLoop (translations : Obj) (tgt : String) :
    List String → Obj → List String → Obj × List String
  | [], s, f => (s, f)
  | k :: ks, s, f =>
    if jsTruthy (objGet translations k) then
      filterKeysLoop translations tgt ks
        (objSet s k (postProcessTranslation (objGetD translations k) tgt)) f
    else filterKeysLoop translations tgt ks s (f ++ ["Missing translation for key: " ++ k])

/-- Lines 286-302 of `parseTranslationResponse`: validate and filter a
parsed map against the requested keys, failing when nothing was accepted. -/
def filterRequestedTranslations (translations : Obj) (req : TranslationRequest) :
    Except String OllamaParsed :=
  let step := filterKeysLoop translations req.targetLang req.keys [] []
  if objSize step.1 = 0 then .error "No valid translations found in response"
  else .ok ⟨step.1, step.2⟩

/-- Outcome of `parseTranslationResponse` over the modelled fragment:
`parsed` is a normal return, `jsonPath` marks the JSON.parse continuation
(outside the fragment), `raised` a propagated exception. -/
inductive OllamaParseOutcome
  | parsed (successful : Obj) (failed : List String)
  | jsonPath (jsonString : String)
  | raised (msg : String)
deriving DecidableEq

/-- The catch block of `parseTranslationResponse`: a `TranslationError`
whose message contains `JSON` triggers the line-oriented fallback, anything
else is rethrown. -/
def ollamaCatch (msg responseText : String) (req : TranslationRequest) : OllamaParseOutcome :=
  if strIncludes msg "JSON" then
    match fallbackParseResponse responseText req with
    | .ok p => .parsed p.successfulTranslations p.failedTranslations
    | .error m => .raised m
  else .raised msg

/-- `OllamaService.parseTranslationResponse` on the modelled fragment. -/
def parseTranslationResponse (raw : OllamaRaw) (req : TranslationRequest) :
    OllamaParseOutcome :=
  let responseText := extractResponseText raw
  if responseText = "" then ollamaCatch "Empty response from Ollama" responseText req
  else if hasJsonSubstring responseText then .jsonPath (jsonMatchString responseText)
  else ollamaCatch "No JSON object found in Ollama response" responseText req

/-! ### Lemmas about the key-matching loops -/

theorem objSet_append_of_not_has (m : Obj) (k v : String) (h : objHas m k = false) :
    objSet m k v = m ++ [(k, v)] := by
  induction m with
  | nil => rfl
  | cons p rest ih =>
    simp only [objHas, List.any_cons, Bool.or_eq_false_iff] at h
    simp only [objSet, h.1, Bool.false_eq_true, if_false, List.cons_append]
    rw [ih (by simpa [objHas] using h.2)]

theorem objHas_append (a b : Obj) (k : String) :
    objHas (a ++ b) k = (objHas a k || objHas b k) := by
  simp [objHas, List.any_append]

theorem fallbackKeysLoop_fst_keys (kt : Obj) (tgt : String) :
    ∀ (ks : List String) (s : Obj) (f : List String),
      ks.Nodup → (∀ k ∈ ks, objHas s k = false) →
      objKeys (fallbackKeysLoop kt tgt ks s f).1 =
        objKeys s ++ ks.filter fun k => jsTruthy (objGet kt k) := by
  intro ks
  induction ks with
  | nil => intro s f _ _; simp [fallbackKeysLoop]
  | cons k ks ih =>
    intro s f hnd hfresh
    have hk := hfresh k (List.mem_cons_self k ks)
    have hknotin : k ∉ ks := (List.nodup_cons.mp hnd).1
    have hndt : ks.Nodup := (List.nodup_cons.mp hnd).2
    unfold fallbackKeysLoop
    by_cases ht : jsTruthy (objGet kt k)
    · rw [if_pos ht]
      have hset := objSet_append_of_not_has s k (postProcessTranslation (objGetD kt k) tgt) hk
      have hfresh2 : ∀ x ∈ ks, objHas (objSet s k (postProcessTranslation (objGetD kt k) tgt)) x = false := by
        intro x hx
        rw [hset, objHas_append]
        have hxk : x ≠ k := fun h => hknotin (h ▸ hx)
        have hkx : k ≠ x := Ne.symm hxk
        have h1 := hfresh x (List.mem_cons_of_mem _ hx)
        have h2 : objHas [(k, postProcessTranslation (objGetD kt k) tgt)] x = false := by
          simp [objHas, hkx]
        rw [h1, h2]
        rfl
      rw [ih _ f hndt hfresh2, hset]
      simp only [objKeys, List.map_append, List.map_cons, List.map_nil]
      rw [List.filter_cons_of_pos (by simpa using ht)]
      simp
    · rw [if_neg ht]
      rw [ih s _ hndt fun x hx => hfresh x (List.mem_cons_of_mem _ hx)]
      rw [List.filter_cons_of_neg (by simpa using ht)]

theorem fallbackKeysLoop_fst_subset (kt : Obj) (tgt : String) :
    ∀ (ks : List String) (s : Obj) (f : List String) (x : String),
      x ∈ objKeys (fallbackKeysLoop kt tgt ks s f).1 → x ∈ objKeys s ∨ x ∈ ks := by
  intro ks
  induction ks with
  | nil => intro s f x hx; exact Or.inl (by simpa [fallbackKeysLoop] using hx)
  | cons k ks ih =>
    intro s f x hx
    unfold fallbackKeysLoop at hx
    by_cases ht : jsTruthy (objGet kt k)
    · rw [if_pos ht] at hx
      rcases ih _ _ x hx with h2 | h2
      · rcases (mem_objKeys_objSet_iff s k _ x).mp h2 with h3 | rfl
        · exact Or.inl h3
        · exact Or.inr (List.mem_cons_self _ _)
      · exact Or.inr (List.mem_cons_of_mem _ h2)
    · rw [if_neg ht] at hx
      rcases ih _ _ x hx with h2 | h2
      · exact Or.inl h2
      · exact Or.inr (List.mem_cons_of_mem _ h2)

theorem filterKeysLoop_fst_subset (translations : Obj) (tgt : String) :
    ∀ (ks : List String) (s : Obj) (f : List String) (x : String),
      x ∈ objKeys (filterKeysLoop translations tgt ks s f).1 → x ∈ objKeys s ∨ x ∈ ks := by
  intro ks
  induction ks with
  | nil => intro s f x hx; exact Or.inl (by simpa [filterKeysLoop] using hx)
  | cons k ks ih =>
    intro s f x hx
    unfold filterKeysLoop at hx
    by_cases ht : jsTruthy (objGet translations k)
    · rw [if_pos ht] at hx
      rcases ih _ _ x hx with h2 | h2
      · rcases (mem_objKeys_objSet_iff s k _ x).mp h2 with h3 | rfl
        · exact Or.inl h3
        · exact Or.inr (List.mem_cons_self _ _)
      · exact Or.inr (List.mem_cons_of_mem _ h2)
    · rw [if_neg ht] at hx
      rcases ih _ _ x hx with h2 | h2
      · exact Or.inl h2
      · exact Or.inr (List.mem_cons_of_mem _ h2)

/-! ### C2: fallback parsing behaviour -/

/-- Request for the C2 counterexample: the single key `a`. -/
def c2req : TranslationRequest where
  sourceLang := "en"
  targetLang := "ru"
  keys := ["a"]
  texts := [("a", "Hello")]

/-- Raw Ollama reply for the C2 counterexample: no `{...}` substring, and
the requested key `a` appears on a well-formed `"key": "value"` line (with
an empty value). -/
def c2raw : OllamaRaw where
  response := some "\"a\": \"\""

/-- C2 counterexample: the response has no JSON substring and key `a`
appears on a well-formed `"key": "value"` line, so per the claim the
fallback should return (with `a` among the recovered keys) — but the code
raises `Fallback parsing also failed to extract translations`, because the
truthiness test drops keys whose extracted value is the empty string and
the zero-recovery branch throws instead of returning. -/
theorem C2_counterexample :
    hasJsonSubstring (extractResponseText c2raw) = false ∧
      regexKeyValue (jsTrim "\"a\": \"\"").toList = some ("a", "") ∧
      parseTranslationResponse c2raw c2req =
        .raised "Fallback parsing also failed to extract translations" := by
  decide

/-- C2 (amended): when the response text is non-empty and has no `{...}`
substring, `parseTranslationResponse` falls back to line-oriented
extraction; it returns translations for exactly those requested keys whose
(most recent) well-formed `"key": "value"` line carries a non-empty value,
and raises `Fallback parsing also failed to extract translations` when no
requested key is recovered. -/
theorem C2_fallback_line_extraction (raw : OllamaRaw) (req : TranslationRequest)
    (hne : extractResponseText raw ≠ "")
    (hnj : hasJsonSubstring (extractResponseText raw) = false)
    (hnd : req.keys.Nodup) :
    (req.keys.filter (fun k =>
        jsTruthy (objGet (fallbackCollect (jsSplitChar (extractResponseText raw) '\n')) k)) ≠ [] →
      ∃ s f, parseTranslationResponse raw req = .parsed s f ∧
        objKeys s = req.keys.filter fun k =>
          jsTruthy (objGet (fallbackCollect (jsSplitChar (extractResponseText raw) '\n')) k)) ∧
    (req.keys.filter (fun k =>
        jsTruthy (objGet (fallbackCollect (jsSplitChar (extractResponseText raw) '\n')) k)) = [] →
      parseTranslationResponse raw req =
        .raised "Fallback parsing also failed to extract translations") := by
  have hroute : parseTranslationResponse raw req =
      ollamaCatch "No JSON object found in Ollama response" (extractResponseText raw) req := by
    unfold parseTranslationResponse
    rw [if_neg hne, if_neg (by rw [hnj]; exact Bool.false_ne_true)]
  have hjson : strIncludes "No JSON object found in Ollama response" "JSON" = true := by decide
  have hkeys := fallbackKeysLoop_fst_keys
    (fallbackCollect (jsSplitChar (extractResponseText raw) '\n')) req.targetLang
    req.keys [] [] hnd (by intro k _; rfl)
  have hsize : objSize (fallbackKeysLoop
      (fallbackCollect (jsSplitChar (extractResponseText raw) '\n')) req.targetLang
      req.keys [] []).1 =
      (req.keys.filter fun k =>
        jsTruthy (objGet (fallbackCollect (jsSplitChar (extractResponseText raw) '\n')) k)).length := by
    show (fallbackKeysLoop _ _ req.keys [] []).1.length = _
    rw [show ∀ m : Obj, m.length = (objKeys m).length from fun m => (List.length_map m _).symm]
    rw [hkeys]
    simp [objKeys]
  constructor
  · intro hrec
    have hpos : 0 < objSize (fallbackKeysLoop
        (fallbackCollect (jsSplitChar (extractResponseText raw) '\n')) req.targetLang
        req.keys [] []).1 := by
      rw [hsize]
      exact List.length_pos.mpr hrec
    have hfb : fallbackParseResponse (extractResponseText raw) req =
        .ok ⟨(fallbackKeysLoop (fallbackCollect (jsSplitChar (extractResponseText raw) '\n'))
              req.targetLang req.keys [] []).1,
            (fallbackKeysLoop (fallbackCollect (jsSplitChar (extractResponseText raw) '\n'))
              req.targetLang req.keys [] []).2⟩ := by
      simp only [fallbackParseResponse]
      rw [if_pos hpos]
    refine ⟨(fallbackKeysLoop (fallbackCollect (jsSplitChar (extractResponseText raw) '\n'))
        req.targetLang req.keys [] []).1,
      (fallbackKeysLoop (fallbackCollect (jsSplitChar (extractResponseText raw) '\n'))
        req.targetLang req.keys [] []).2, ?_, ?_⟩
    · rw [hroute]
      unfold ollamaCatch
      rw [if_pos hjson, hfb]
    · rw [hkeys]
      simp [objKeys]
  · intro hrec
    have hfb : fallbackParseResponse (extractResponseText raw) req =
        .error "Fallback parsing also failed to extract translations" := by
      simp only [fallbackParseResponse]
      rw [if_neg (by rw [hsize, hrec]; simp)]
    rw [hroute]
    unfold ollamaCatch
    rw [if_pos hjson, hfb]

/-- Request for the C2 witness: keys `a` and `b`. -/
def c2wreq : TranslationRequest where
  sourceLang := "en"
  targetLang := "ru"
  keys := ["a", "b"]
  texts := [("a", "Hello"), ("b", "World")]

/-- Raw reply for the C2 witness: prose with one well-formed line for `a`。-/
def c2wraw : OllamaRaw where
  response := some "sorry, here you go:\n\"a\": \"Privet\"\nhope that helps"

/-- Witness for the amended C2: the fallback recovers exactly the requested
key `a` from its well-formed line. -/
theorem C2_fallback_line_extraction_witness :
    ∃ s f, parseTranslationResponse c2wraw c2wreq = .parsed s f ∧ objKeys s = ["a"] := by
  have h := (C2_fallback_line_extraction c2wraw c2wreq (by decide) (by decide) (by decide)).1
    (by decide)
  obtain ⟨s, f, hp, hk⟩ := h
  exact ⟨s, f, hp, by rw [hk]; decide⟩

/-! ## Request validation (`src/utils/validationUtils.ts`)

`validateTranslationRequest` with the configuration defaults of
`src/config/config.ts` (environment overrides are deployment-specific and
not modelled). -/

/-- Default `config.translation.supportedLanguages`. -/
def supportedLanguages : List String :=
  ["en", "ru", "es", "de", "fr", "it", "pt", "pl", "zh-CN", "ja", "ko"]

/-- Default `config.translation.maxLangKeysPerFile`. -/
def maxLangKeysPerFile : Nat := 5000

/-- Default `config.translation.skipEmptyValues`. -/
def skipEmptyValues : Bool := false

/-- `config.translation.methods`. -/
def configMethods : List TMethod := [.localM, .aiM]

/-- `config.translation.modules`. -/
def configModules : List String := ["google", "google2", "bing"]

/-- `config.translation.fallbackOptions`. -/
def configFallbackOptions : List String := ["yes", "no"]

/-- `validateLanguage`. -/
def validateLanguage (langCode langType : String) : Except String Unit :=
  if langCode = "" || jsTrim langCode = "" then
    .error (langType ++ " language code is required and must be a non-empty string")
  else if (supportedLanguages.map asciiLower).contains (asciiLower (jsTrim langCode)) then
    .ok ()
  else .error ("Unsupported " ++ langType ++ " language: " ++ langCode)

/-- `validateTranslationMethods`. -/
def validateTranslationMethods (methods : List TMethod) : Except String Unit :=
  if methods.length = 0 then .error "Translation methods must be a non-empty array"
  else if (methods.filter fun m => !configMethods.contains m).length > 0 then
    .error "Unsupported translation methods"
  else if methods.dedup.length ≠ methods.length then
    .error "Duplicate translation methods are not allowed"
  else .ok ()

/-- `validateTranslationModules`. -/
def validateTranslationModules (modules : List String) : Except String Unit :=
  if modules.length = 0 then .error "Translation modules must be a non-empty array"
  else if (modules.filter fun m => !configModules.contains m).length > 0 then
    .error "Unsupported translation modules"
  else if modules.dedup.length ≠ modules.length then
    .error "Duplicate translation modules are not allowed"
  else .ok ()

/-- `validateFallbackOptions`. -/
def validateFallbackOptions (options : List String) : Except String Unit :=
  if options.length = 0 then .error "Fallback options must be a non-empty array"
  else if (options.filter fun o => !configFallbackOptions.contains o).length > 0 then
    .error "Unsupported fallback options"
  else if options.dedup.length ≠ options.length then
    .error "Duplicate fallback options are not allowed"
  else .ok ()

/-- `validateRequestLimits`. -/
def validateRequestLimits (req : TranslationRequest) : Except String Unit :=
  if req.keys.length > maxLangKeysPerFile then
    .error "Maximum number of keys for translation exceeded"
  else if (req.texts.map fun p => p.2.length).foldl (· + ·) 0 > 1000000 then
    .error "Total text length exceeded"
  else if skipEmptyValues then
    let emptyKeys := req.keys.filter fun k =>
      !jsTruthy (objGet req.texts k) || jsTrim (objGetD req.texts k) = ""
    if emptyKeys.length > 0 && emptyKeys.length = req.keys.length then
      .error "All texts are empty. At least one non-empty text is required"
    else .ok ()
  else .ok ()

/-- `validateTranslationRequest`: the sequential checks written as explicit
propagation of the first raised error. -/
def validateTranslationRequest (req : TranslationRequest) : Except String Unit :=
  match validateLanguage req.sourceLang "source" with
  | .error e => .error e
  | .ok _ =>
  match validateLanguage req.targetLang "target" with
  | .error e => .error e
  | .ok _ =>
  if req.sourceLang = req.targetLang then
    .error ("Source and target languages must be different: " ++ req.sourceLang)
  else if req.keys.length = 0 then
    .error "Keys array is required and must not be empty"
  else if (req.keys.filter fun k => !objHas req.texts k).length > 0 then
    .error "Missing texts for keys"
  else
  match (match req.methods with
         | some ms => validateTranslationMethods ms
         | none => .ok ()) with
  | .error e => .error e
  | .ok _ =>
  match (match req.modules with
         | some ms => validateTranslationModules ms
         | none => .ok ()) with
  | .error e => .error e
  | .ok _ =>
  match (match req.fallbackOptions with
         | some os => validateFallbackOptions os
         | none => .ok ()) with
  | .error e => .error e
  | .ok _ => validateRequestLimits req

/-! ## TranslationService (`src/services/translation/TranslationService.ts`)

The orchestrator: cache lookup, method ordering with fallback escalation,
cache population.  The cache is the JS `Map` `translationCache`, modelled
as an insertion-ordered `Obj`; `cacheSize` is the constructor constant. -/

/-- `TranslationService.generateCacheKey`. -/
def generateCacheKey (key sourceLang targetLang : String) : String :=
  sourceLang ++ ":" ++ targetLang ++ ":" ++ key

/-- The constructor's `this.cacheSize = 10000`. -/
def cacheSizeConst : Nat := 10000

/-- One iteration of the `cacheTranslations` forEach: evict the oldest
entry when at capacity (the `if (oldestKey)` truthiness guard included),
then insert. -/
def cacheInsertEntry (cacheSize : Nat) (cache : Obj) (src tgt key value : String) : Obj :=
  let cache1 :=
    if cacheSize ≤ cache.length then
      match cache.head? with
      | some p => if p.1 ≠ "" then objDelete cache p.1 else cache
      | none => cache
    else cache
  objSet cache1 (generateCacheKey key src tgt) value

/-- `TranslationService.cacheTranslations`: insert every entry of a
translations object (in `Object.entries` order). -/
def cacheTranslations (cacheSize : Nat) (cache : Obj) (translations : Obj)
    (src tgt : String) : Obj :=
  translations.foldl (fun c kv => cacheInsertEntry cacheSize c src tgt kv.1 kv.2) cache

/-- `TranslationService.clearCache`. -/
def clearCache (_cache : Obj) : Obj := []

/-- The loop of `filterCachedTranslations`, splitting requested keys into
cache hits and misses. -/
def filterCachedLoop (cache : Obj) (src tgt : String) :
    List String → Obj → List String → Obj × List String
  | [], hits, misses => (hits, misses)
  | k :: ks, hits, misses =>
    match objGet cache (generateCacheKey k src tgt) with
    | some v => filterCachedLoop cache src tgt ks (objSet hits k v) misses
    | none => filterCachedLoop cache src tgt ks hits (misses ++ [k])

/-- `TranslationService.filterCachedTranslations`. -/
def filterCachedTranslations (cache : Obj) (req : TranslationRequest) :
    Obj × List String :=
  filterCachedLoop cache req.sourceLang req.targetLang req.keys [] []

/-- `TranslationService.determineTranslationMethods`. -/
def determineTranslationMethods (req : TranslationRequest) : List TMethod :=
  match req.methods with
  | some ms => if ms.length > 0 then ms else [.localM, .aiM]
  | none => [.localM, .aiM]

/-- Error taxonomy crossing the orchestrator boundary. -/
inductive SvcError
  | validationError (msg : String)
  | translationError (msg : String)
  | serviceUnavailable (msg : String)
  | otherError (msg : String)
deriving DecidableEq

/-- The `error.message` of a service error. -/
def SvcError.msg : SvcError → String
  | validationError m => m
  | translationError m => m
  | serviceUnavailable m => m
  | otherError m => m

/-- `error instanceof TranslationError`. -/
def SvcError.isTranslationError : SvcError → Bool
  | translationError _ => true
  | _ => false

/-- `request.fallbackOptions?.includes('yes')` coerced to a boolean. -/
def fallbackYes (req : TranslationRequest) : Bool :=
  match req.fallbackOptions with
  | some opts => opts.contains "yes"
  | none => false

/-- `request.keys.filter(key => !result?.translations[key])` — the keys the
local result left without a truthy translation. -/
def missingKeysOf (req : TranslationRequest) (result : TranslationResponse) : List String :=
  req.keys.filter fun k => !jsTruthy (objGet result.translations k)

/-- The escalation sub-batch: only the missing keys, their original texts
(`Object.fromEntries(missingKeys.map(key => [key, request.texts[key]]))`),
and `methods: ['ai']`. -/
def subBatchFor (req : TranslationRequest) (missing : List String) : TranslationRequest :=
  { req with
      keys := missing
      texts := missing.map fun k => (k, objGetD req.texts k)
      methods := some [.aiM] }

/-- The in-place merge of an escalation result into the local result:
spread-merge of translations, concatenated errors, `fallbackUsed := true`. -/
def mergeEscalation (result aiResult : TranslationResponse) : TranslationResponse :=
  { result with
      translations := objMerge result.translations aiResult.translations
      errors := result.errors ++ aiResult.errors
      metadata := { result.metadata with fallbackUsed := some true } }

/-- Result of `translateWithMethods` together with the requests passed to
the local and AI services, in call order. -/
structure TwmOut where
  result : Except SvcError TranslationResponse
  localCalls : List TranslationRequest
  aiCalls : List TranslationRequest

/-- The `for (const method of methods)` loop of
`translateWithMethods`.  The `catch` compares the failing method against
`methods[methods.length - 1]` by value and rethrows a wrapped
`TranslationError` when they agree, otherwise continues. -/
def twmGo (localSvc aiSvc : TranslationRequest → Except SvcError TranslationResponse)
    (req : TranslationRequest) (allMethods : List TMethod) :
    List TMethod → List TranslationRequest → List TranslationRequest → TwmOut
  | [], lc, ac => ⟨.error (.translationError "No translations were produced by any method"), lc, ac⟩
  | m :: rest, lc, ac =>
    match m with
    | .localM =>
      match localSvc req with
      | .error e =>
        if allMethods.getLast? = some TMethod.localM then
          ⟨.error (.translationError ("All translation methods failed. Last error: " ++ e.msg)),
            lc ++ [req], ac⟩
        else twmGo localSvc aiSvc req allMethods rest (lc ++ [req]) ac
      | .ok r =>
        if objSize r.translations < req.keys.length && fallbackYes req then
          if (missingKeysOf req r).length > 0 then
            match aiSvc (subBatchFor req (missingKeysOf req r)) with
            | .error e =>
              if allMethods.getLast? = some TMethod.localM then
                ⟨.error (.translationError ("All translation methods failed. Last error: " ++ e.msg)),
                  lc ++ [req], ac ++ [subBatchFor req (missingKeysOf req r)]⟩
              else twmGo localSvc aiSvc req allMethods rest (lc ++ [req])
                (ac ++ [subBatchFor req (missingKeysOf req r)])
            | .ok ra =>
              if objSize (mergeEscalation r ra).translations > 0 then
                ⟨.ok (mergeEscalation r ra), lc ++ [req],
                  ac ++ [subBatchFor req (missingKeysOf req r)]⟩
              else twmGo localSvc aiSvc req allMethods rest (lc ++ [req])
                (ac ++ [subBatchFor req (missingKeysOf req r)])
          else
            if objSize r.translations > 0 then ⟨.ok r, lc ++ [req], ac⟩
            else twmGo localSvc aiSvc req allMethods rest (lc ++ [req]) ac
        else
          if objSize r.translations > 0 then ⟨.ok r, lc ++ [req], ac⟩
          else twmGo localSvc aiSvc req allMethods rest (lc ++ [req]) ac
    | .aiM =>
      match aiSvc req with
      | .error e =>
        if allMethods.getLast? = some TMethod.aiM then
          ⟨.error (.translationError ("All translation methods failed. Last error: " ++ e.msg)),
            lc, ac ++ [req]⟩
        else twmGo localSvc aiSvc req allMethods rest lc (ac ++ [req])
      | .ok r =>
        if objSize r.translations > 0 then ⟨.ok r, lc, ac ++ [req]⟩
        else twmGo localSvc aiSvc req allMethods rest lc (ac ++ [req])

/-- `TranslationService.translateWithMethods`. -/
def translateWithMethods (localSvc aiSvc : TranslationRequest → Except SvcError TranslationResponse)
    (req : TranslationRequest) (methods : List TMethod) : TwmOut :=
  twmGo localSvc aiSvc req methods methods [] []

/-- Result of one `translate` call: outcome, updated cache state, and the
number of `translateWithMethods` invocations (0 when answered from cache). -/
structure TranslateOut where
  result : Except SvcError TranslationResponse
  cache : Obj
  svcCalls : Nat

/-- `TranslationService.translate`, parameterised by the method-dispatch
service `svc` (the `translateWithMethods` call, receiving the miss-only
sub-request and the determined method list). -/
def translateGen (svc : TranslationRequest → List TMethod → Except SvcError TranslationResponse)
    (cache : Obj) (req : TranslationRequest) : TranslateOut :=
  match validateTranslationRequest req with
  | .error m => ⟨.error (.validationError m), cache, 0⟩
  | .ok _ =>
    let fc := filterCachedTranslations cache req
    if fc.2.length = 0 then
      ⟨.ok
        { translations := fc.1
          metadata :=
            { provider := "cache"
              processingTime := 0
              successfulKeys := objSize fc.1
              failedKeys := 0
              cacheHits := some (objSize fc.1)
              cacheMisses := some 0 }
          errors := [] }, cache, 0⟩
    else
      let filteredRequest : TranslationRequest :=
        { req with
            keys := fc.2
            texts := fc.2.map fun k => (k, objGetD req.texts k) }
      match svc filteredRequest (determineTranslationMethods req) with
      | .error e =>
        if e.isTranslationError then ⟨.error e, cache, 1⟩
        else ⟨.error (.translationError ("Translation failed: " ++ e.msg)), cache, 1⟩
      | .ok result =>
        ⟨.ok
          { translations := objMerge fc.1 result.translations
            metadata :=
              { result.metadata with
                  processingTime := 0
                  cacheHits := some (objSize fc.1)
                  cacheMisses := some fc.2.length }
            errors := result.errors },
          cacheTranslations cacheSizeConst cache result.translations req.sourceLang req.targetLang,
          1⟩

/-! ### Further `Obj` lemmas -/

theorem objGet_isSome_iff (m : Obj) (k : String) : (objGet m k).isSome = objHas m k := by
  induction m with
  | nil => rfl
  | cons p rest ih =>
    by_cases hp : p.1 = k
    · simp [objGet, objHas, List.find?, hp]
    · have hpf : (p.1 == k) = false := by simpa using hp
      simp only [objGet, objHas, List.find?, hpf, List.any_cons, Bool.false_or]
      exact ih

theorem objHas_some (m : Obj) (k : String) (h : objHas m k = true) :
    objGet m k = some (objGetD m k) := by
  have h2 : (objGet m k).isSome = true := by rw [objGet_isSome_iff]; exact h
  match h3 : objGet m k with
  | some v => simp [objGetD, h3]
  | none => rw [h3] at h2; cases h2

theorem mem_objKeys_objMerge_iff (a b : Obj) (x : String) :
    x ∈ objKeys (objMerge a b) ↔ x ∈ objKeys a ∨ x ∈ objKeys b := by
  induction b generalizing a with
  | nil => simp [objMerge, objKeys]
  | cons p rest ih =>
    show x ∈ objKeys (objMerge (objSet a p.1 p.2) rest) ↔ _
    rw [ih]
    rw [mem_objKeys_objSet_iff]
    simp only [objKeys, List.map_cons, List.mem_cons]
    tauto

theorem objSet_length_le (m : Obj) (k v : String) :
    (objSet m k v).length ≤ m.length + 1 := by
  induction m with
  | nil => simp [objSet]
  | cons p rest ih =>
    by_cases hp : p.1 = k
    · simp [objSet, hp]
    · have hpf : (p.1 == k) = false := by simpa using hp
      simp only [objSet, hpf, Bool.false_eq_true, if_false, List.length_cons]
      omega

theorem objSet_nodup (m : Obj) (k v : String) (h : (objKeys m).Nodup) :
    (objKeys (objSet m k v)).Nodup := by
  rw [objKeys_objSet]
  by_cases hh : objHas m k
  · simpa [hh] using h
  · simp only [hh, Bool.false_eq_true, if_false]
    rw [List.nodup_append]
    refine ⟨h, List.nodup_singleton k, ?_⟩
    intro x hx
    simp only [List.mem_singleton]
    intro hxk
    subst hxk
    exact absurd ((objHas_iff m x).mpr hx) (by simpa using hh)

theorem objDelete_head_nodup (p : String × String) (rest : Obj)
    (h : (objKeys (p :: rest)).Nodup) : objDelete (p :: rest) p.1 = rest := by
  simp only [objKeys, List.map_cons, List.nodup_cons] at h
  simp only [objDelete, List.filter_cons]
  rw [show (p.1 != p.1) = false from by simp]
  simp only [Bool.false_eq_true, if_false]
  apply List.filter_eq_self.mpr
  intro q hq
  have : q.1 ≠ p.1 := by
    intro he
    exact h.1 (he ▸ List.mem_map.mpr ⟨q, hq, rfl⟩)
  simpa using this

theorem objDelete_nodup (m : Obj) (k : String) (h : (objKeys m).Nodup) :
    (objKeys (objDelete m k)).Nodup := by
  induction m with
  | nil => simp [objDelete, objKeys]
  | cons p rest ih =>
    simp only [objKeys, List.map_cons, List.nodup_cons] at h
    simp only [objDelete, List.filter_cons]
    by_cases hp : p.1 = k
    · rw [show (p.1 != k) = false from by simpa using hp]
      simp only [Bool.false_eq_true, if_false]
      exact ih h.2
    · rw [show (p.1 != k) = true from by simpa using hp]
      simp only [if_true, objKeys, List.map_cons, List.nodup_cons]
      refine ⟨?_, ih h.2⟩
      intro hmem
      apply h.1
      rcases List.mem_map.mp hmem with ⟨q, hq, hqe⟩
      exact List.mem_map.mpr ⟨q, List.mem_of_mem_filter hq, hqe⟩

theorem objDelete_length_lt (m : Obj) (k : String) (h : objHas m k = true) :
    (objDelete m k).length < m.length := by
  induction m with
  | nil => simp [objHas] at h
  | cons p rest ih =>
    simp only [objDelete, List.filter_cons]
    by_cases hp : p.1 = k
    · rw [show (p.1 != k) = false from by simpa using hp]
      simp only [Bool.false_eq_true, if_false, List.length_cons]
      calc (List.filter (fun p => p.1 != k) rest).length ≤ rest.length :=
            List.length_filter_le _ _
        _ < rest.length + 1 := by omega
    · rw [show (p.1 != k) = true from by simpa using hp]
      simp only [if_true, List.length_cons]
      have h2 : objHas rest k = true := by
        simp only [objHas, List.any_cons, Bool.or_eq_true] at h
        rcases h with h | h
        · exact absurd (by simpa using h) hp
        · exact h
      have := ih h2
      simp only [objDelete] at this
      omega

/-- A cache key built by `generateCacheKey` is never the empty string, so
the `if (oldestKey)` truthiness guard always passes for real entries. -/
theorem generateCacheKey_ne_empty (key src tgt : String) :
    generateCacheKey key src tgt ≠ "" := by
  intro h
  have := congrArg String.length h
  simp only [generateCacheKey, String.length_append] at this
  have h1 : String.length ":" = 1 := rfl
  rw [h1] at this
  have h0 : String.length "" = 0 := rfl
  rw [h0] at this
  omega

/-! ### C6: cache capacity invariant and insertion-order eviction -/

/-- An externally observable cache operation (`cacheTranslations` call or
`clearCache`). -/
inductive CacheOp
  | insert (translations : Obj) (src tgt : String)
  | clear

/-- Apply one operation to the cache state. -/
def applyCacheOp (cache : Obj) : CacheOp → Obj
  | .insert translations src tgt => cacheTranslations cacheSizeConst cache translations src tgt
  | .clear => clearCache cache

/-- The cache after a sequence of operations on a fresh service. -/
def runCacheOps (ops : List CacheOp) : Obj := ops.foldl applyCacheOp []

/-- Invariant maintained by the cache: bounded size, unique keys, and no
empty-string key (every key comes from `generateCacheKey`). -/
def CacheWF (n : Nat) (c : Obj) : Prop :=
  c.length ≤ n ∧ (objKeys c).Nodup ∧ ∀ k ∈ objKeys c, k ≠ ""

theorem cacheInsertEntry_wf (n : Nat) (hn : 0 < n) (c : Obj) (src tgt key value : String)
    (hwf : CacheWF n c) : CacheWF n (cacheInsertEntry n c src tgt key value) := by
  obtain ⟨hlen, hnd, hne⟩ := hwf
  unfold cacheInsertEntry
  by_cases hcap : n ≤ c.length
  · rw [if_pos hcap]
    cases c with
    | nil => simp at hcap; omega
    | cons p rest =>
      simp only [List.head?]
      have hp1 : p.1 ≠ "" := hne p.1 (by simp [objKeys])
      rw [if_pos hp1, objDelete_head_nodup p rest hnd]
      show CacheWF n (objSet rest (generateCacheKey key src tgt) value)
      have hndr : (objKeys rest).Nodup := by
        simp only [objKeys, List.map_cons, List.nodup_cons] at hnd
        exact hnd.2
      refine ⟨?_, objSet_nodup _ _ _ hndr, ?_⟩
      · have h1 := objSet_length_le rest (generateCacheKey key src tgt) value
        simp only [List.length_cons] at hlen
        omega
      · intro x hx
        rcases (mem_objKeys_objSet_iff rest _ _ x).mp hx with h2 | rfl
        · exact hne x (by simp [objKeys]; right; simpa [objKeys] using h2)
        · exact generateCacheKey_ne_empty key src tgt
  · rw [if_neg hcap]
    show CacheWF n (objSet c (generateCacheKey key src tgt) value)
    refine ⟨?_, objSet_nodup _ _ _ hnd, ?_⟩
    · have h1 := objSet_length_le c (generateCacheKey key src tgt) value
      omega
    · intro x hx
      rcases (mem_objKeys_objSet_iff c _ _ x).mp hx with h2 | rfl
      · exact hne x h2
      · exact generateCacheKey_ne_empty key src tgt

theorem cacheTranslations_wf (n : Nat) (hn : 0 < n) (src tgt : String) :
    ∀ (translations : Obj) (c : Obj), CacheWF n c →
      CacheWF n (cacheTranslations n c translations src tgt) := by
  intro translations
  induction translations with
  | nil => intro c h; exact h
  | cons p rest ih =>
    intro c h
    exact ih _ (cacheInsertEntry_wf n hn c src tgt p.1 p.2 h)

theorem runCacheOps_wf (ops : List CacheOp) : CacheWF cacheSizeConst (runCacheOps ops) := by
  have hn : 0 < cacheSizeConst := by norm_num [cacheSizeConst]
  have hstep : ∀ (ops2 : List CacheOp) (c : Obj), CacheWF cacheSizeConst c →
      CacheWF cacheSizeConst (ops2.foldl applyCacheOp c) := by
    intro ops2
    induction ops2 with
    | nil => intro c h; exact h
    | cons op rest ih =>
      intro c h
      apply ih
      cases op with
      | insert translations src tgt => exact cacheTranslations_wf _ hn src tgt translations c h
      | clear =>
        exact ⟨by simp [applyCacheOp, clearCache], by simp [applyCacheOp, clearCache, objKeys],
          by simp [applyCacheOp, clearCache, objKeys]⟩
  exact hstep ops [] ⟨by simp, by simp [objKeys], by simp [objKeys]⟩

/-- A single (sourceLang, targetLang, key, value) insertion, as performed
by `cacheTranslations`. -/
structure CacheEntry where
  src : String
  tgt : String
  key : String
  value : String

/-- Fold a list of entries into the cache via `cacheInsertEntry` — the
composite effect of any sequence of `cacheTranslations` calls carrying
these entries in order. -/
def insertEntries (cacheSize : Nat) (cache : Obj) (es : List CacheEntry) : Obj :=
  es.foldl (fun c e => cacheInsertEntry cacheSize c e.src e.tgt e.key e.value) cache

/-- The cache pair an entry becomes. -/
def entryPair (e : CacheEntry) : String × String :=
  (generateCacheKey e.key e.src e.tgt, e.value)

theorem insertEntries_no_evict (n : Nat) :
    ∀ (es : List CacheEntry) (cache : Obj),
      (objKeys cache ++ es.map fun e => generateCacheKey e.key e.src e.tgt).Nodup →
      cache.length + es.length ≤ n →
      insertEntries n cache es = cache ++ es.map entryPair := by
  intro es
  induction es with
  | nil => intro c _ _; simp [insertEntries]
  | cons e es ih =>
    intro c hnd hlen
    have hlt : ¬(n ≤ c.length) := by
      simp only [List.length_cons] at hlen
      omega
    have hfresh : objHas c (generateCacheKey e.key e.src e.tgt) = false := by
      rw [List.map_cons, List.nodup_append] at hnd
      have hdisj := hnd.2.2
      by_cases hh : objHas c (generateCacheKey e.key e.src e.tgt)
      · exact (hdisj ((objHas_iff _ _).mp hh) (List.mem_cons_self _ _)).elim
      · simpa using hh
    have hstep : cacheInsertEntry n c e.src e.tgt e.key e.value = c ++ [entryPair e] := by
      unfold cacheInsertEntry
      rw [if_neg hlt]
      exact objSet_append_of_not_has c _ _ hfresh
    show insertEntries n (cacheInsertEntry n c e.src e.tgt e.key e.value) es = _
    rw [hstep, ih (c ++ [entryPair e]) ?hnd2 ?hlen2]
    · simp
    case hnd2 =>
      rw [List.map_cons] at hnd
      have : objKeys (c ++ [entryPair e]) = objKeys c ++ [generateCacheKey e.key e.src e.tgt] := by
        simp [objKeys, entryPair]
      rw [this, List.append_assoc]
      simpa using hnd
    case hlen2 =>
      simp only [List.length_append, List.length_cons, List.length_nil] at hlen ⊢
      omega

theorem insertEntries_evicts_first (es : List CacheEntry)
    (hlen : es.length = cacheSizeConst + 1)
    (hnd : (es.map fun e => generateCacheKey e.key e.src e.tgt).Nodup) :
    insertEntries cacheSizeConst [] es = (es.map entryPair).drop 1 := by
  have hne : es ≠ [] := by
    intro h
    rw [h] at hlen
    simp [cacheSizeConst] at hlen
  obtain ⟨M, z, hMz, hMlen⟩ : ∃ M z, es = M ++ [z] ∧ M.length = cacheSizeConst := by
    refine ⟨es.dropLast, es.getLast hne, (List.dropLast_append_getLast hne).symm, ?_⟩
    rw [List.length_dropLast, hlen]
    rfl
  subst hMz
  have hndM : (objKeys ([] : Obj) ++ M.map fun e => generateCacheKey e.key e.src e.tgt).Nodup := by
    rw [List.map_append] at hnd
    have := List.Nodup.sublist (List.sublist_append_left _ _) hnd
    simpa [objKeys] using this
  have hfill : insertEntries cacheSizeConst [] M = M.map entryPair :=
    insertEntries_no_evict cacheSizeConst M [] hndM (by simp [hMlen])
  have hsplit : insertEntries cacheSizeConst [] (M ++ [z]) =
      cacheInsertEntry cacheSizeConst (insertEntries cacheSizeConst [] M) z.src z.tgt z.key z.value := by
    unfold insertEntries
    rw [List.foldl_append]
    rfl
  rw [hsplit, hfill]
  cases M with
  | nil => simp [cacheSizeConst] at hMlen
  | cons m0 M2 =>
    have hkeysM : objKeys ((m0 :: M2).map entryPair) =
        (m0 :: M2).map fun e => generateCacheKey e.key e.src e.tgt := by
      simp [objKeys, entryPair]
    have hndMkeys : (objKeys ((m0 :: M2).map entryPair)).Nodup := by
      rw [hkeysM]
      rw [List.map_append] at hnd
      exact List.Nodup.sublist (List.sublist_append_left _ _) hnd
    have hcap : cacheSizeConst ≤ ((m0 :: M2).map entryPair).length := by
      rw [List.length_map, hMlen]
    unfold cacheInsertEntry
    rw [if_pos hcap]
    simp only [List.map_cons, List.head?]
    have hp1 : (entryPair m0).1 ≠ "" := generateCacheKey_ne_empty m0.key m0.src m0.tgt
    rw [if_pos hp1]
    have hdel : objDelete (entryPair m0 :: M2.map entryPair) (entryPair m0).1 = M2.map entryPair := by
      apply objDelete_head_nodup
      simpa [List.map_cons] using hndMkeys
    rw [hdel]
    have hfreshz : objHas (M2.map entryPair) (generateCacheKey z.key z.src z.tgt) = false := by
      by_cases hh : objHas (M2.map entryPair) (generateCacheKey z.key z.src z.tgt)
      · exfalso
        have hmem := (objHas_iff _ _).mp hh
        have hkeysM2 : objKeys (M2.map entryPair) =
            M2.map fun e => generateCacheKey e.key e.src e.tgt := by
          simp [objKeys, entryPair]
        rw [hkeysM2] at hmem
        rw [List.map_append, List.map_cons] at hnd
        rw [List.nodup_append] at hnd
        have hdisj := hnd.2.2
        have hz : generateCacheKey z.key z.src z.tgt ∈
            [generateCacheKey z.key z.src z.tgt] := List.mem_singleton.mpr rfl
        have hin : generateCacheKey z.key z.src z.tgt ∈
            (m0 :: M2).map fun e => generateCacheKey e.key e.src e.tgt := by
          rw [List.map_cons]
          exact List.mem_cons_of_mem _ hmem
        exact hdisj hin (by simp)
      · simpa using hh
    rw [objSet_append_of_not_has _ _ _ hfreshz]
    simp [entryPair]

/-- C6: after any sequence of `cacheTranslations` and `clearCache`
operations the cache holds at most its capacity of 10,000 entries; and
inserting capacity + 1 entries with pairwise-distinct composite cache keys
into a fresh cache evicts exactly the first-inserted entry and no other
(the final cache is exactly entries 2..capacity+1 in insertion order). -/
theorem C6_cache_capacity_and_eviction :
    (∀ ops : List CacheOp, (runCacheOps ops).length ≤ cacheSizeConst) ∧
    (∀ es : List CacheEntry, es.length = cacheSizeConst + 1 →
      (es.map fun e => generateCacheKey e.key e.src e.tgt).Nodup →
      insertEntries cacheSizeConst [] es = (es.map entryPair).drop 1) :=
  ⟨fun ops => (runCacheOps_wf ops).1,
   fun es hlen hnd => insertEntries_evicts_first es hlen hnd⟩

/-- Distinct cache keys for the C6 witness, one per length. -/
def natKeyStr (i : Nat) : String := ⟨List.replicate i 'a'⟩

theorem natKeyStr_length (i : Nat) : (natKeyStr i).length = i := by
  simp [natKeyStr, String.length]

/-- 10,001 distinct entries for the C6 witness. -/
def c6entries : List CacheEntry :=
  (List.range (cacheSizeConst + 1)).map fun i => ⟨"en", "ru", natKeyStr i, "v"⟩

/-- Witness for C6: a concrete one-entry insert respects the bound, and the
10,001 distinct-key entries of `c6entries` evict exactly the first. -/
theorem C6_cache_capacity_and_eviction_witness :
    (runCacheOps [CacheOp.insert [("k", "v")] "en" "ru"]).length ≤ cacheSizeConst ∧
      insertEntries cacheSizeConst [] c6entries = (c6entries.map entryPair).drop 1 := by
  refine ⟨C6_cache_capacity_and_eviction.1 _, C6_cache_capacity_and_eviction.2 c6entries ?_ ?_⟩
  · simp [c6entries]
  · unfold c6entries
    rw [List.map_map]
    apply (List.nodup_range _).map_on
    intro i _ j _ hde
    have := congrArg String.length hde
    simp only [Function.comp, generateCacheKey, String.length_append, natKeyStr_length] at this
    omega

/-! ### C4: local-result escalation to the AI service -/

theorem jsTruthy_mem (m : Obj) (k : String) (h : jsTruthy (objGet m k) = true) :
    k ∈ objKeys m := by
  match h2 : objGet m k with
  | none => rw [h2] at h; cases h
  | some v =>
    have h3 : (objGet m k).isSome = true := by rw [h2]; rfl
    rw [objGet_isSome_iff] at h3
    exact (objHas_iff m k).mp h3

theorem missingKeysOf_length_pos (req : TranslationRequest) (r : TranslationResponse)
    (hknd : req.keys.Nodup)
    (hincomplete : objSize r.translations < req.keys.length) :
    (missingKeysOf req r).length > 0 := by
  by_contra h
  push_neg at h
  have hnil : missingKeysOf req r = [] := List.length_eq_zero.mp (by omega)
  have hall : ∀ k ∈ req.keys, jsTruthy (objGet r.translations k) = true := by
    intro k hk
    have h2 := List.filter_eq_nil_iff.mp hnil k hk
    simpa using h2
  have hsub : req.keys ⊆ objKeys r.translations := fun k hk => jsTruthy_mem _ _ (hall k hk)
  have hle := (List.subperm_of_subset hknd hsub).length_le
  simp only [objSize] at hincomplete
  have hlen2 : (objKeys r.translations).length = r.translations.length := by simp [objKeys]
  omega

theorem objGet_map_self (texts : Obj) :
    ∀ (ks : List String) (k : String), k ∈ ks → objHas texts k = true →
      objGet (ks.map fun k2 => (k2, objGetD texts k2)) k = objGet texts k := by
  intro ks
  induction ks with
  | nil => intro k hk _; cases hk
  | cons k0 rest ih =>
    intro k hk hh
    by_cases hke : k0 = k
    · subst hke
      rw [objHas_some texts k0 hh]
      simp [objGet, List.find?]
    · have hk2 : k ∈ rest := by
        rcases List.mem_cons.mp hk with h | h
        · exact absurd h.symm hke
        · exact h
      have h3 := ih k hk2 hh
      simp only [List.map_cons, objGet, List.find?]
      rw [show ((k0, objGetD texts k0).1 == k) = false from by simpa using hke]
      simpa [objGet] using h3

/-- C4: when the local method's result covers fewer keys than requested and
the request's fallbackOptions include `yes`, `translateWithMethods` invokes
the AI service exactly once, on a sub-batch holding exactly the
still-missing keys (those without a truthy local translation) with their
original texts and `methods = ['ai']`; it merges the AI translations and
errors into the local result, sets `metadata.fallbackUsed := true`, and —
the merged result having at least one translation — returns it at once,
never consulting the remaining methods. -/
theorem C4_local_escalation
    (localSvc aiSvc : TranslationRequest → Except SvcError TranslationResponse)
    (req : TranslationRequest) (rest : List TMethod) (r ra : TranslationResponse)
    (hlocal : localSvc req = .ok r)
    (hincomplete : objSize r.translations < req.keys.length)
    (hfb : fallbackYes req = true)
    (hknd : req.keys.Nodup)
    (htexts : ∀ k ∈ req.keys, objHas req.texts k = true)
    (hai : aiSvc (subBatchFor req (missingKeysOf req r)) = .ok ra)
    (hmerged : objSize (mergeEscalation r ra).translations > 0) :
    translateWithMethods localSvc aiSvc req (.localM :: rest) =
      ⟨.ok (mergeEscalation r ra), [req], [subBatchFor req (missingKeysOf req r)]⟩ ∧
    (subBatchFor req (missingKeysOf req r)).keys = missingKeysOf req r ∧
    (subBatchFor req (missingKeysOf req r)).methods = some [.aiM] ∧
    (∀ k ∈ missingKeysOf req r,
      objGet (subBatchFor req (missingKeysOf req r)).texts k = objGet req.texts k) ∧
    (mergeEscalation r ra).translations = objMerge r.translations ra.translations ∧
    (mergeEscalation r ra).errors = r.errors ++ ra.errors ∧
    (mergeEscalation r ra).metadata.fallbackUsed = some true := by
  have hmiss := missingKeysOf_length_pos req r hknd hincomplete
  have hsubkeys : ∀ k ∈ missingKeysOf req r, k ∈ req.keys := by
    intro k hk
    exact List.mem_of_mem_filter hk
  refine ⟨?_, rfl, rfl, ?_, rfl, rfl, rfl⟩
  · unfold translateWithMethods twmGo
    simp only [hlocal, hai]
    simp [hincomplete, hfb, hmiss, hmerged]
  · intro k hk
    exact objGet_map_self req.texts (missingKeysOf req r) k hk (htexts k (hsubkeys k hk))

/-- Request for the C4 witness. -/
def c4req : TranslationRequest where
  sourceLang := "en"
  targetLang := "ru"
  keys := ["a", "b"]
  texts := [("a", "Alpha"), ("b", "Beta")]
  fallbackOptions := some ["yes"]

/-- Local result for the C4 witness: only key `a` translated. -/
def c4localResp : TranslationResponse where
  translations := [("a", "A1")]
  metadata := { provider := "local", successfulKeys := 1, failedKeys := 0 }
  errors := []

/-- AI result for the C4 witness. -/
def c4aiResp : TranslationResponse where
  translations := [("b", "B1")]
  metadata := { provider := "openrouter", successfulKeys := 1, failedKeys := 0 }
  errors := []

/-- Constant local service for the C4 witness. -/
def c4localSvc : TranslationRequest → Except SvcError TranslationResponse :=
  fun _ => .ok c4localResp

/-- Constant AI service for the C4 witness. -/
def c4aiSvc : TranslationRequest → Except SvcError TranslationResponse :=
  fun _ => .ok c4aiResp

/-- Witness for C4: the incomplete local result escalates the missing key
`b` to the AI service and returns the merged result immediately. -/
theorem C4_local_escalation_witness :
    translateWithMethods c4localSvc c4aiSvc c4req [.localM, .aiM] =
      ⟨.ok (mergeEscalation c4localResp c4aiResp), [c4req],
        [subBatchFor c4req (missingKeysOf c4req c4localResp)]⟩ := by
  have h := C4_local_escalation c4localSvc c4aiSvc c4req [.aiM] c4localResp c4aiResp
    rfl (by decide) (by decide) (by decide) (by decide) rfl (by decide)
  exact h.1

/-! ### C5: cache round-trip -/

theorem filterCachedLoop_empty (src tgt : String) :
    ∀ (ks : List String) (hits : Obj) (misses : List String),
      filterCachedLoop [] src tgt ks hits misses = (hits, misses ++ ks) := by
  intro ks
  induction ks with
  | nil => intro hits misses; simp [filterCachedLoop]
  | cons k rest ih =>
    intro hits misses
    show filterCachedLoop [] src tgt rest hits (misses ++ [k]) = _
    rw [ih]
    simp

theorem filterCachedLoop_all_hit (cache : Obj) (src tgt : String) :
    ∀ (ks : List String) (hits : Obj) (misses : List String),
      (∀ k ∈ ks, objHas cache (generateCacheKey k src tgt) = true) →
      ks.Nodup → (∀ k ∈ ks, objHas hits k = false) →
      (filterCachedLoop cache src tgt ks hits misses).2 = misses ∧
      objKeys (filterCachedLoop cache src tgt ks hits misses).1 = objKeys hits ++ ks := by
  intro ks
  induction ks with
  | nil => intro hits misses _ _ _; simp [filterCachedLoop]
  | cons k rest ih =>
    intro hits misses hhit hnd hfresh
    have hk := hhit k (List.mem_cons_self k rest)
    have hget : objGet cache (generateCacheKey k src tgt) =
        some (objGetD cache (generateCacheKey k src tgt)) := objHas_some _ _ hk
    unfold filterCachedLoop
    rw [hget]
    have hkfresh := hfresh k (List.mem_cons_self k rest)
    have hknotin : k ∉ rest := (List.nodup_cons.mp hnd).1
    have hset := objSet_append_of_not_has hits k
      (objGetD cache (generateCacheKey k src tgt)) hkfresh
    have hfresh2 : ∀ x ∈ rest, objHas (objSet hits k (objGetD cache (generateCacheKey k src tgt))) x = false := by
      intro x hx
      rw [hset, objHas_append]
      have hxk : k ≠ x := fun h => hknotin (h ▸ hx)
      rw [hfresh x (List.mem_cons_of_mem _ hx)]
      simp [objHas, hxk]
    have hrec := ih _ misses (fun x hx => hhit x (List.mem_cons_of_mem _ hx))
      (List.nodup_cons.mp hnd).2 hfresh2
    refine ⟨hrec.1, ?_⟩
    rw [hrec.2, hset]
    simp [objKeys]

theorem cacheTranslations_no_evict_props (n : Nat) (src tgt : String) :
    ∀ (translations : Obj) (c : Obj), c.length + translations.length ≤ n →
      (∀ x, objHas c x = true → objHas (cacheTranslations n c translations src tgt) x = true) ∧
      (∀ p ∈ translations,
        objHas (cacheTranslations n c translations src tgt) (generateCacheKey p.1 src tgt) = true) := by
  intro translations
  induction translations with
  | nil => intro c _; exact ⟨fun x h => h, by simp⟩
  | cons p rest ih =>
    intro c hlen
    have hlt : ¬(n ≤ c.length) := by
      simp only [List.length_cons] at hlen
      omega
    have hstep : cacheInsertEntry n c src tgt p.1 p.2 =
        objSet c (generateCacheKey p.1 src tgt) p.2 := by
      unfold cacheInsertEntry
      rw [if_neg hlt]
    have hshow : cacheTranslations n c (p :: rest) src tgt =
        cacheTranslations n (objSet c (generateCacheKey p.1 src tgt) p.2) rest src tgt := by
      show cacheTranslations n (cacheInsertEntry n c src tgt p.1 p.2) rest src tgt = _
      rw [hstep]
    have hlen2 : (objSet c (generateCacheKey p.1 src tgt) p.2).length + rest.length ≤ n := by
      have := objSet_length_le c (generateCacheKey p.1 src tgt) p.2
      simp only [List.length_cons] at hlen
      omega
    have hrec := ih _ hlen2
    rw [hshow]
    constructor
    · intro x hx
      exact hrec.1 x (objHas_objSet_of_has c _ p.2 x hx)
    · intro q hq
      rcases List.mem_cons.mp hq with hq1 | hq2
      · rw [hq1]
        exact hrec.1 _ (objHas_objSet_self c _ p.2)
      · exact hrec.2 q hq2

theorem validate_ok_facts (req : TranslationRequest)
    (h : validateTranslationRequest req = .ok ()) :
    req.keys.length ≠ 0 ∧ req.keys.length ≤ maxLangKeysPerFile ∧
      ∀ k ∈ req.keys, objHas req.texts k = true := by
  by_cases hkeys0 : req.keys.length = 0
  · exfalso
    unfold validateTranslationRequest at h
    split at h
    · exact absurd h (by simp)
    split at h
    · exact absurd h (by simp)
    split at h
    · exact absurd h (by simp)
    exact absurd h (by simp)
  by_cases hmiss : 0 < (req.keys.filter fun k => !objHas req.texts k).length
  · exfalso
    unfold validateTranslationRequest at h
    split at h
    · exact absurd h (by simp)
    split at h
    · exact absurd h (by simp)
    split at h
    · exact absurd h (by simp)
    exact absurd h (by simp)
  by_cases hlimit : req.keys.length > maxLangKeysPerFile
  · exfalso
    unfold validateTranslationRequest at h
    split at h
    · exact absurd h (by simp)
    split at h
    · exact absurd h (by simp)
    split at h
    · exact absurd h (by simp)
    split at h
    · exact absurd h (by simp)
    split at h
    · exact absurd h (by simp)
    split at h
    · exact absurd h (by simp)
    unfold validateRequestLimits at h
    rw [if_pos hlimit] at h
    exact absurd h (by simp)
  refine ⟨hkeys0, by omega, ?_⟩
  intro k hk
  have hfil : (req.keys.filter fun k => !objHas req.texts k) = [] :=
    List.length_eq_zero.mp (by omega)
  have h5 := List.filter_eq_nil_iff.mp hfil k hk
  simpa using h5

theorem translateGen_eq_of_valid
    (svc : TranslationRequest → List TMethod → Except SvcError TranslationResponse)
    (cache : Obj) (req : TranslationRequest)
    (hval : validateTranslationRequest req = .ok ()) :
    translateGen svc cache req =
      if (filterCachedTranslations cache req).2.length = 0 then
        ⟨.ok
          { translations := (filterCachedTranslations cache req).1
            metadata :=
              { provider := "cache"
                processingTime := 0
                successfulKeys := objSize (filterCachedTranslations cache req).1
                failedKeys := 0
                cacheHits := some (objSize (filterCachedTranslations cache req).1)
                cacheMisses := some 0 }
            errors := [] }, cache, 0⟩
      else
        match svc { req with
            keys := (filterCachedTranslations cache req).2
            texts := (filterCachedTranslations cache req).2.map fun k => (k, objGetD req.texts k) }
          (determineTranslationMethods req) with
        | .error e =>
          if e.isTranslationError then ⟨.error e, cache, 1⟩
          else ⟨.error (.translationError ("Translation failed: " ++ e.msg)), cache, 1⟩
        | .ok result =>
          ⟨.ok
            { translations := objMerge (filterCachedTranslations cache req).1 result.translations
              metadata :=
                { result.metadata with
                    processingTime := 0
                    cacheHits := some (objSize (filterCachedTranslations cache req).1)
                    cacheMisses := some (filterCachedTranslations cache req).2.length }
              errors := result.errors },
            cacheTranslations cacheSizeConst cache result.translations req.sourceLang req.targetLang,
            1⟩ := by
  unfold translateGen
  rw [hval]

/-- C5: when a first `translate` call on a fresh service succeeds with all
requested keys translated, a second call on the same batch is answered
entirely from the cache: provider `cache`, `cacheHits` equal to the key
count, `cacheMisses` zero, no service invocation (`svcCalls = 0`), and the
cache state untouched.  `hsvcwf` records the JS-object invariant that a
service result's translations map has unique keys. -/
theorem C5_cache_round_trip
    (svc : TranslationRequest → List TMethod → Except SvcError TranslationResponse)
    (req : TranslationRequest) (r1 : TranslationResponse) (cache1 : Obj) (n1 : Nat)
    (hknd : req.keys.Nodup)
    (hsvcwf : ∀ r ms res, svc r ms = .ok res → (objKeys res.translations).Nodup)
    (h1 : translateGen svc [] req = ⟨.ok r1, cache1, n1⟩)
    (hcover : ∀ k, k ∈ objKeys r1.translations ↔ k ∈ req.keys) :
    ∃ r2, translateGen svc cache1 req = ⟨.ok r2, cache1, 0⟩ ∧
      r2.metadata.provider = "cache" ∧
      r2.metadata.cacheHits = some req.keys.length ∧
      r2.metadata.cacheMisses = some 0 ∧
      ∀ k ∈ req.keys, objHas r2.translations k = true := by
  have hval : validateTranslationRequest req = .ok () := by
    cases hv : validateTranslationRequest req with
    | ok u => cases u; rfl
    | error m =>
      unfold translateGen at h1
      rw [hv] at h1
      simp at h1
  have hfacts := validate_ok_facts req hval
  rw [translateGen_eq_of_valid svc [] req hval] at h1
  have hfc1 : filterCachedTranslations [] req = ([], req.keys) := by
    unfold filterCachedTranslations
    simpa using filterCachedLoop_empty req.sourceLang req.targetLang req.keys [] []
  simp only [hfc1] at h1
  rw [if_neg hfacts.1] at h1
  split at h1
  · split at h1 <;> simp at h1
  · rename_i result heq
    simp only [TranslateOut.mk.injEq, Except.ok.injEq] at h1
    obtain ⟨hres, hcache, hn⟩ := h1
    have htr : r1.translations = objMerge [] result.translations :=
      (congrArg TranslationResponse.translations hres).symm
    simp only [htr] at hcover
    have hresnd : (objKeys result.translations).Nodup := hsvcwf _ _ _ heq
    have hressub : objKeys result.translations ⊆ req.keys := by
      intro x hx
      exact (hcover x).mp ((mem_objKeys_objMerge_iff [] result.translations x).mpr (Or.inr hx))
    have hlenres : result.translations.length ≤ req.keys.length := by
      have h2 := (List.subperm_of_subset hresnd hressub).length_le
      simpa [objKeys] using h2
    have hmax : maxLangKeysPerFile = 5000 := rfl
    have hcs : cacheSizeConst = 10000 := rfl
    have hbound : ([] : Obj).length + result.translations.length ≤ cacheSizeConst := by
      simp only [List.length_nil, Nat.zero_add, hcs]
      omega
    have hprops := cacheTranslations_no_evict_props cacheSizeConst req.sourceLang
      req.targetLang result.translations [] hbound
    have hcov1 : ∀ k ∈ req.keys,
        objHas cache1 (generateCacheKey k req.sourceLang req.targetLang) = true := by
      intro k hk
      have hkmem : k ∈ objKeys result.translations := by
        have h2 := (hcover k).mpr hk
        rcases (mem_objKeys_objMerge_iff [] result.translations k).mp h2 with h3 | h3
        · simp [objKeys] at h3
        · exact h3
      obtain ⟨p, hp, hpk⟩ := List.mem_map.mp hkmem
      have h4 := hprops.2 p hp
      rw [hpk] at h4
      rw [← hcache]
      exact h4
    rw [translateGen_eq_of_valid svc cache1 req hval]
    have hfc2 := filterCachedLoop_all_hit cache1 req.sourceLang req.targetLang req.keys
      [] [] hcov1 hknd (fun k _ => rfl)
    have hfc2snd : (filterCachedTranslations cache1 req).2 = [] := hfc2.1
    have hfc2keys : objKeys (filterCachedTranslations cache1 req).1 = req.keys := by
      simpa [objKeys] using hfc2.2
    rw [if_pos (by rw [hfc2snd]; rfl)]
    refine ⟨_, rfl, rfl, ?_, rfl, ?_⟩
    · show some (objSize (filterCachedTranslations cache1 req).1) = some req.keys.length
      have : objSize (filterCachedTranslations cache1 req).1 = req.keys.length := by
        show (filterCachedTranslations cache1 req).1.length = _
        rw [show ∀ m : Obj, m.length = (objKeys m).length from fun m => (List.length_map m _).symm]
        rw [hfc2keys]
      rw [this]
    · intro k hk
      show objHas (filterCachedTranslations cache1 req).1 k = true
      rw [objHas_iff, hfc2keys]
      exact hk

/-- Request for the C5 witness. -/
def c5req : TranslationRequest where
  sourceLang := "en"
  targetLang := "ru"
  keys := ["a"]
  texts := [("a", "Hello")]

/-- Service response for the C5 witness. -/
def c5resp : TranslationResponse where
  translations := [("a", "Privet")]
  metadata := { provider := "local", successfulKeys := 1, failedKeys := 0 }
  errors := []

/-- Constant dispatch service for the C5 witness. -/
def c5svc : TranslationRequest → List TMethod → Except SvcError TranslationResponse :=
  fun _ _ => .ok c5resp

/-- The first call's response in the C5 witness. -/
def c5r1 : TranslationResponse where
  translations := [("a", "Privet")]
  metadata :=
    { provider := "local", successfulKeys := 1, failedKeys := 0
      cacheHits := some 0, cacheMisses := some 1 }
  errors := []

/-- The cache state after the first call in the C5 witness. -/
def c5cache1 : Obj := [("en:ru:a", "Privet")]

/-- Witness for C5 on a one-key batch. -/
theorem C5_cache_round_trip_witness :
    ∃ r2, translateGen c5svc c5cache1 c5req = ⟨.ok r2, c5cache1, 0⟩ ∧
      r2.metadata.provider = "cache" ∧
      r2.metadata.cacheHits = some c5req.keys.length ∧
      r2.metadata.cacheMisses = some 0 ∧
      ∀ k ∈ c5req.keys, objHas r2.translations k = true := by
  refine C5_cache_round_trip c5svc c5req c5r1 c5cache1 1 (by decide) ?_ ?_ ?_
  · intro r ms res h
    cases h
    decide
  · rfl
  · intro k
    show k ∈ objKeys [("a", "Privet")] ↔ k ∈ ["a"]
    simp [objKeys]

/-! ### C3: translations keys are a subset of the requested keys -/

theorem filterCachedLoop_fst_subset (cache : Obj) (src tgt : String) :
    ∀ (ks : List String) (hits : Obj) (misses : List String) (x : String),
      x ∈ objKeys (filterCachedLoop cache src tgt ks hits misses).1 →
      x ∈ objKeys hits ∨ x ∈ ks := by
  intro ks
  induction ks with
  | nil => intro hits misses x hx; exact Or.inl (by simpa [filterCachedLoop] using hx)
  | cons k rest ih =>
    intro hits misses x hx
    unfold filterCachedLoop at hx
    cases hg : objGet cache (generateCacheKey k src tgt) with
    | some v =>
      rw [hg] at hx
      rcases ih _ _ x hx with h2 | h2
      · rcases (mem_objKeys_objSet_iff hits k v x).mp h2 with h3 | rfl
        · exact Or.inl h3
        · exact Or.inr (List.mem_cons_self _ _)
      · exact Or.inr (List.mem_cons_of_mem _ h2)
    | none =>
      rw [hg] at hx
      rcases ih _ _ x hx with h2 | h2
      · exact Or.inl h2
      · exact Or.inr (List.mem_cons_of_mem _ h2)

theorem filterCachedLoop_snd_subset (cache : Obj) (src tgt : String) :
    ∀ (ks : List String) (hits : Obj) (misses : List String) (x : String),
      x ∈ (filterCachedLoop cache src tgt ks hits misses).2 →
      x ∈ misses ∨ x ∈ ks := by
  intro ks
  induction ks with
  | nil => intro hits misses x hx; exact Or.inl (by simpa [filterCachedLoop] using hx)
  | cons k rest ih =>
    intro hits misses x hx
    unfold filterCachedLoop at hx
    cases hg : objGet cache (generateCacheKey k src tgt) with
    | some v =>
      rw [hg] at hx
      rcases ih _ _ x hx with h2 | h2
      · exact Or.inl h2
      · exact Or.inr (List.mem_cons_of_mem _ h2)
    | none =>
      rw [hg] at hx
      rcases ih _ _ x hx with h2 | h2
      · rcases List.mem_append.mp h2 with h3 | h3
        · exact Or.inl h3
        · have hxk : x = k := by simpa using h3
          exact Or.inr (by simp [hxk])
      · exact Or.inr (List.mem_cons_of_mem _ h2)

/-- C3: on every path the translations key set is a subset of the requested
keys — the Ollama parsed-map filter, the Ollama line-oriented fallback, the
OpenRouter per-key loop, and the orchestrator's `translate` (given that its
dispatched service respects the same property on the sub-request). -/
theorem C3_translations_subset_of_request :
    (∀ (translations : Obj) (req : TranslationRequest) (p : OllamaParsed),
      filterRequestedTranslations translations req = .ok p →
      ∀ x ∈ objKeys p.successfulTranslations, x ∈ req.keys) ∧
    (∀ (responseText : String) (req : TranslationRequest) (p : OllamaParsed),
      fallbackParseResponse responseText req = .ok p →
      ∀ x ∈ objKeys p.successfulTranslations, x ∈ req.keys) ∧
    (∀ (tr : Nat → Except String String) (req : TranslationRequest),
      ∀ x ∈ objKeys (translateWithOpenRouter tr req).translations, x ∈ req.keys) ∧
    (∀ (svc : TranslationRequest → List TMethod → Except SvcError TranslationResponse)
       (cache : Obj) (req : TranslationRequest) (r : TranslationResponse),
      (∀ r2 ms res, svc r2 ms = .ok res → ∀ x ∈ objKeys res.translations, x ∈ r2.keys) →
      (translateGen svc cache req).result = .ok r →
      ∀ x ∈ objKeys r.translations, x ∈ req.keys) := by
  refine ⟨?_, ?_, ?_, ?_⟩
  · intro translations req p h x hx
    simp only [filterRequestedTranslations] at h
    split at h
    · exact absurd h (by simp)
    · have hp : p.successfulTranslations =
          (filterKeysLoop translations req.targetLang req.keys [] []).1 := by
        have := Except.ok.inj h
        rw [← this]
      rw [hp] at hx
      rcases filterKeysLoop_fst_subset translations req.targetLang req.keys [] [] x hx with h2 | h2
      · simp [objKeys] at h2
      · exact h2
  · intro responseText req p h x hx
    simp only [fallbackParseResponse] at h
    split at h
    · have hp : p.successfulTranslations =
          (fallbackKeysLoop (fallbackCollect (jsSplitChar responseText '\n'))
            req.targetLang req.keys [] []).1 := by
        have := Except.ok.inj h
        rw [← this]
      rw [hp] at hx
      rcases fallbackKeysLoop_fst_subset _ req.targetLang req.keys [] [] x hx with h2 | h2
      · simp [objKeys] at h2
      · exact h2
    · exact absurd h (by simp)
  · intro tr req x hx
    have hx2 : x ∈ objKeys (orLoop tr req.texts req.keys 0 [] []).1 := hx
    rcases orLoop_fst_keys_subset tr req.texts req.keys 0 [] [] x hx2 with h2 | h2
    · simp [objKeys] at h2
    · exact h2
  · intro svc cache req r hsvc hres x hx
    cases hv : validateTranslationRequest req with
    | error m =>
      have h2 : (translateGen svc cache req).result = .error (.validationError m) := by
        unfold translateGen
        rw [hv]
      rw [h2] at hres
      exact absurd hres (by simp)
    | ok u =>
      cases u
      rw [translateGen_eq_of_valid svc cache req hv] at hres
      split at hres
      · have hr : r.translations = (filterCachedTranslations cache req).1 := by
          have h3 := Except.ok.inj hres
          rw [← h3]
        rw [hr] at hx
        rcases filterCachedLoop_fst_subset cache req.sourceLang req.targetLang req.keys
          [] [] x hx with h2 | h2
        · simp [objKeys] at h2
        · exact h2
      · split at hres
        · rename_i e
          split at hres <;> exact absurd hres (by simp)
        · rename_i result heq
          have hr : r.translations =
              objMerge (filterCachedTranslations cache req).1 result.translations := by
            have h3 := Except.ok.inj hres
            rw [← h3]
          rw [hr] at hx
          rcases (mem_objKeys_objMerge_iff _ _ x).mp hx with h2 | h2
          · rcases filterCachedLoop_fst_subset cache req.sourceLang req.targetLang req.keys
              [] [] x h2 with h3 | h3
            · simp [objKeys] at h3
            · exact h3
          · have h3 := hsvc _ _ result heq x h2
            rcases filterCachedLoop_snd_subset cache req.sourceLang req.targetLang req.keys
              [] [] x h3 with h4 | h4
            · simp at h4
            · exact h4

/-- Dispatch service for the C3 witness: echoes every requested key. -/
def c3svc : TranslationRequest → List TMethod → Except SvcError TranslationResponse :=
  fun r2 _ => .ok
    { translations := r2.keys.map fun k => (k, "X")
      metadata := { provider := "local", successfulKeys := r2.keys.length, failedKeys := 0 }
      errors := [] }

/-- The response of the C3 witness's orchestrator call. -/
def c3r1 : TranslationResponse where
  translations := [("a", "X")]
  metadata :=
    { provider := "local", successfulKeys := 1, failedKeys := 0
      cacheHits := some 0, cacheMisses := some 1 }
  errors := []

/-- Witness for C3: concrete key-subset consequences on each path. -/
theorem C3_translations_subset_of_request_witness :
    ("a" ∈ c2req.keys ∧ "a" ∈ c10req.keys) ∧ "a" ∈ c5req.keys := by
  have h := C3_translations_subset_of_request
  refine ⟨⟨?_, ?_⟩, ?_⟩
  · exact h.1 [("a", "x")] c2req ⟨[("a", "x")], []⟩ rfl "a" (by decide)
  · exact h.2.2.1 c10tr c10req "a" (by decide)
  · refine h.2.2.2 c3svc [] c5req c3r1 ?_ rfl "a" (by decide)
    intro r2 ms res hok x hx
    cases hok
    have : objKeys (r2.keys.map fun k => (k, "X")) = r2.keys := by
      simp [objKeys, List.map_map, Function.comp_def]
    rwa [this] at hx

end MineTranslator
